import Mathlib

/-!
# Verification of the `signals` signal-chain engine

Shallow embedding of `src/audio/stages.ts` and `src/audio/engine.ts`.

JavaScript numbers are modelled by `JSNum`: either `nan` or an exact
rational.  (The claims under study depend only on NaN propagation and on
order comparisons, which `ℚ` models faithfully for every literal appearing
in the source.)  The WebAudio graph is modelled by an explicit list of
directed connections between abstract node references; internal wiring of
composite stages (the delay's private dry/wet/feedback nodes) is opaque to
the engine and is not part of the connection list, exactly as the engine
never inspects or disconnects it.
-/

namespace Signals

/-- A JavaScript number: NaN or an exact rational value. -/
inductive JSNum where
  | nan : JSNum
  | num : ℚ → JSNum
deriving DecidableEq, Repr

instance (n : Nat) : OfNat JSNum n := ⟨.num n⟩

/-- `Number.isNaN`. -/
def JSNum.isNaN : JSNum → Bool
  | .nan => true
  | .num _ => false

/-- `Math.min` (NaN-propagating, as in JavaScript). -/
def jsMin : JSNum → JSNum → JSNum
  | .nan, _ => .nan
  | _, .nan => .nan
  | .num a, .num b => .num (min a b)

/-- `Math.max` (NaN-propagating, as in JavaScript). -/
def jsMax : JSNum → JSNum → JSNum
  | .nan, _ => .nan
  | _, .nan => .nan
  | .num a, .num b => .num (max a b)

/-- JavaScript subtraction (NaN-propagating); used for `1 - wet`. -/
def jsSub : JSNum → JSNum → JSNum
  | .num a, .num b => .num (a - b)
  | _, _ => .nan

/-- `stages.ts` `clamp`: NaN maps to `min`, otherwise the usual clamp. -/
def clamp (value mn mx : JSNum) : JSNum :=
  if value.isNaN then mn else jsMin (jsMax value mn) mx

/-- A `Record<string, number>` of parameters, as an association list
(first occurrence wins on lookup, matching JS object key uniqueness). -/
abbrev Params := List (String × JSNum)

/-- `typeof p.k === 'number'` ↔ `lookupParam p k` is `some`. -/
def lookupParam (p : Params) (k : String) : Option JSNum :=
  List.lookup k p

/-- One entry of a stage definition's parameter schema
(`StageParamDef` in `stages.ts`; the display `format` closure is
presentation-only and not modelled). -/
structure StageParamDef where
  min : JSNum
  max : JSNum
  step : JSNum
  default : JSNum
deriving DecidableEq, Repr

/-- Schema of the `gain` parameter of the gain stage. -/
def gainParamDef : StageParamDef := ⟨0, 2, .num (Rat.mk' 1 100), 1⟩

/-- Schema of the `pan` parameter of the pan stage. -/
def panParamDef : StageParamDef := ⟨.num (-1), 1, .num (Rat.mk' 1 100), 0⟩

/-- Schema of the delay stage's `time` parameter. -/
def delayTimeParamDef : StageParamDef := ⟨0, 2, .num (Rat.mk' 1 100), .num (Rat.mk' 2 5)⟩

/-- Schema of the delay stage's `wet` parameter. -/
def delayWetParamDef : StageParamDef := ⟨0, 1, .num (Rat.mk' 1 100), .num (Rat.mk' 1 2)⟩

/-- Schema of the delay stage's `feedback` parameter. -/
def delayFeedbackParamDef : StageParamDef := ⟨0, .num (Rat.mk' 19 20), .num (Rat.mk' 1 100), .num (Rat.mk' 2 5)⟩

/-- Schema of the `gain` parameter of the wasm-gain stage. -/
def wasmGainParamDef : StageParamDef := ⟨0, 2, .num (Rat.mk' 1 100), 1⟩

/-- Schema of the `gain` parameter of the uiua-gain stage. -/
def uiuaGainParamDef : StageParamDef := ⟨0, 2, .num (Rat.mk' 1 100), 1⟩

/-- A stage definition's schema and default parameters
(the `createInstance` factory is modelled by `createNodeState` and
`instanceUpdate`, dispatched on the kind string). -/
structure StageDefinition where
  label : String
  paramDefs : List (String × StageParamDef)
deriving DecidableEq, Repr

/-- `STAGE_REGISTRY`, as a lookup from kind string to definition;
`none` models an absent key (unknown stage kind). -/
def STAGE_REGISTRY : String → Option StageDefinition
  | "gain" => some ⟨"Gain", [("gain", gainParamDef)]⟩
  | "pan" => some ⟨"Stereo Pan", [("pan", panParamDef)]⟩
  | "delay" => some ⟨"Delay",
      [("time", delayTimeParamDef), ("wet", delayWetParamDef),
       ("feedback", delayFeedbackParamDef)]⟩
  | "wasm-gain" => some ⟨"WASM Gain", [("gain", wasmGainParamDef)]⟩
  | "uiua-gain" => some ⟨"Uiua Gain", [("gain", uiuaGainParamDef)]⟩
  | _ => none

/-- `getDefaultParams`: derives the full default parameter record from the
schema; `none` models the TypeError thrown when the kind is unregistered
(`STAGE_REGISTRY[kind]` is `undefined`). -/
def getDefaultParams (kind : String) : Option Params :=
  (STAGE_REGISTRY kind).map fun d => d.paramDefs.map fun kv => (kv.1, kv.2.default)

/-- The live parameter-carrying node state of a stage instance: the
`AudioParam` values the `createInstance` closures write to.  For the delay
stage, `dryGain` is the derived `1 - wet`. -/
inductive NodeState where
  | gain (g : JSNum)
  | pan (p : JSNum)
  | delay (time wet dry feedback : JSNum)
  | wasmGain (g : JSNum)
  | uiuaGain (g : JSNum)
deriving DecidableEq, Repr

/-- `update` closure of the gain stage instance. -/
def gainInstanceUpdate (p : Params) (g : JSNum) : JSNum :=
  match lookupParam p "gain" with
  | some v => clamp v 0 2
  | none => g

/-- `update` closure of the pan stage instance. -/
def panInstanceUpdate (p : Params) (g : JSNum) : JSNum :=
  match lookupParam p "pan" with
  | some v => clamp v (.num (-1)) 1
  | none => g

/-- `update` closure of the delay stage instance: the three guarded
assignments, with `dryGain.gain.value = 1 - wet` recomputed with `wet`. -/
def delayInstanceUpdate (p : Params) (s : NodeState) : NodeState :=
  match s with
  | .delay time wet dry feedback =>
    let time := match lookupParam p "time" with
      | some v => clamp v 0 2
      | none => time
    let (wet, dry) := match lookupParam p "wet" with
      | some v => (clamp v 0 1, jsSub 1 (clamp v 0 1))
      | none => (wet, dry)
    let feedback := match lookupParam p "feedback" with
      | some v => clamp v 0 (.num (Rat.mk' 19 20))
      | none => feedback
    .delay time wet dry feedback
  | other => other

/-- `update` closure of the wasm-gain stage instance (the clamped value is
posted to the worklet; we model the worklet's resulting gain). -/
def wasmGainInstanceUpdate (p : Params) (g : JSNum) : JSNum :=
  match lookupParam p "gain" with
  | some v => clamp v 0 2
  | none => g

/-- `update` closure of the uiua-gain stage instance. -/
def uiuaGainInstanceUpdate (p : Params) (g : JSNum) : JSNum :=
  match lookupParam p "gain" with
  | some v => clamp v 0 2
  | none => g

/-- Dispatch of `instance.update(params)` on the stage kind.  A kind/state
mismatch (impossible for instances the engine creates) leaves the state
unchanged. -/
def instanceUpdate (kind : String) (p : Params) (s : NodeState) : NodeState :=
  if kind = "gain" then
    match s with
    | .gain g => .gain (gainInstanceUpdate p g)
    | other => other
  else if kind = "pan" then
    match s with
    | .pan g => .pan (panInstanceUpdate p g)
    | other => other
  else if kind = "delay" then delayInstanceUpdate p s
  else if kind = "wasm-gain" then
    match s with
    | .wasmGain g => .wasmGain (wasmGainInstanceUpdate p g)
    | other => other
  else if kind = "uiua-gain" then
    match s with
    | .uiuaGain g => .uiuaGain (uiuaGainInstanceUpdate p g)
    | other => other
  else s

/-- Initial node state written by `createInstance(ctx, params)`.  The typed
interface guarantees each key is present in `params`; an absent key is
modelled as NaN (it cannot arise for engine-created instances).  Initial
values are written raw (the factories do not clamp them).  An unregistered
kind cannot reach `createStageInstance` (`addStage` throws first and the
initial stages are registered); it is totalised to a gain node. -/
def createNodeState (kind : String) (p : Params) : NodeState :=
  let get := fun k => (lookupParam p k).getD .nan
  if kind = "gain" then .gain (get "gain")
  else if kind = "pan" then .pan (get "pan")
  else if kind = "delay" then
    .delay (get "time") (get "wet") (jsSub 1 (get "wet")) (get "feedback")
  else if kind = "wasm-gain" then .wasmGain (get "gain")
  else if kind = "uiua-gain" then .uiuaGain (get "gain")
  else .gain .nan

/-! ## Engine state (`engine.ts`) -/

/-- `SourceType`. -/
inductive SourceType where
  | oscillator
  | microphone
deriving DecidableEq, Repr

/-- `WaveformType`. -/
inductive WaveformType where
  | sine
  | square
  | sawtooth
  | triangle
deriving DecidableEq, Repr

/-- `StageState`. -/
structure StageState where
  id : String
  kind : String
  bypassed : Bool
  params : Params
deriving DecidableEq, Repr

/-- The oscillator part of `EngineState`. -/
structure OscState where
  running : Bool
  type : WaveformType
  frequency : JSNum
deriving DecidableEq, Repr

/-- `EngineState` (the canonical state). -/
structure EngineState where
  source : SourceType
  oscillator : OscState
  mic : Bool
  stages : List StageState
deriving DecidableEq, Repr

/-- The initial value of `AudioEngine.state`. -/
def initEngineState : EngineState :=
  { source := .oscillator
    oscillator := { running := false, type := .sine, frequency := .num 440 }
    mic := false
    stages :=
      [ ⟨"gain-stage", "gain", true, [("gain", 1)]⟩
      , ⟨"pan-stage", "pan", true, [("pan", 0)]⟩
      , ⟨"delay-stage", "delay", true,
          [("time", .num (Rat.mk' 2 5)), ("wet", .num (Rat.mk' 1 2)), ("feedback", .num (Rat.mk' 2 5))]⟩ ] }

/-! ## The audio graph model

Abstract references to the WebAudio nodes the engine wires together.
A simple stage (gain, pan, wasm-gain, uiua-gain) is a single node, so its
entry and exit are the same reference (`stageNode`); the delay stage has
distinct entry and exit gain nodes (`stageIn`/`stageOut`). -/

inductive NodeRef where
  | osc
  | mic
  | stageNode (id : String)
  | stageIn (id : String)
  | stageOut (id : String)
  | master
  | analyser
  | destination
deriving DecidableEq, Repr

/-- Entry node (`instance.input`) of a stage instance of a given kind. -/
def entryRef (kind id : String) : NodeRef :=
  if kind = "delay" then .stageIn id else .stageNode id

/-- Exit node (`instance.output`) of a stage instance of a given kind. -/
def exitRef (kind id : String) : NodeRef :=
  if kind = "delay" then .stageOut id else .stageNode id

/-- The boundary nodes owned by a stage instance whose outgoing connections
`dispose()` removes (internal delay nodes never carry engine-made
connections and are not modelled). -/
def instRefs (kind id : String) : List NodeRef :=
  if kind = "delay" then [.stageIn id, .stageOut id] else [.stageNode id]

/-- A directed connection `a.connect(b)`. -/
abbrev Conn := NodeRef × NodeRef

/-- A live `StageInstance` as the engine sees it: its kind (fixing entry and
exit references) and its parameter-carrying node state. -/
structure InstanceModel where
  kind : String
  node : NodeState
deriving DecidableEq, Repr

/-- The `stageInstances` map, as an insertion-ordered association list. -/
abbrev InstTable := List (String × InstanceModel)

/-- Map lookup (`stageInstances.get`). -/
def tblFind (tbl : InstTable) (id : String) : Option InstanceModel :=
  List.lookup id tbl

/-- Map value replacement at an existing key (`Map.set` on a present key). -/
def tblSet : InstTable → String → InstanceModel → InstTable
  | [], _, _ => []
  | (k, v) :: r, id, inst =>
    if k = id then (k, inst) :: r else (k, v) :: tblSet r id inst

/-- The oscillator node, when live (`this.oscillator`). -/
structure OscNode where
  type : WaveformType
  frequency : JSNum
deriving DecidableEq, Repr

/-- The whole `AudioEngine` object: canonical state plus the live graph.
`ctx` covers `ctx`/`analyser`/`masterGain`, which are created together in
`init()`.  `emitted` records the snapshots delivered to subscribers, newest
first.  `disposeLog` records every `dispose()` call by stage id, in order. -/
structure EngineModel where
  ctx : Bool
  state : EngineState
  oscNode : Option OscNode
  micStream : Bool
  micSource : Bool
  instances : InstTable
  connections : List Conn
  emitted : List EngineState
  disposeLog : List String
deriving DecidableEq, Repr

/-! ## The rebuild algorithm (`rebuildSignalChain`) -/

/-- The output-side node references the rebuild disconnects first: the
oscillator and microphone source nodes when present, and every live stage
instance's exit node. -/
def liveOutputRefs (m : EngineModel) : List NodeRef :=
  (if m.oscNode.isSome then [NodeRef.osc] else [])
    ++ (if m.micSource then [NodeRef.mic] else [])
    ++ m.instances.map fun p => exitRef p.2.kind p.1

/-- Phase 1: disconnect the output side of every chain-wiring node. -/
def disconnectOutputs (m : EngineModel) : EngineModel :=
  { m with connections :=
      m.connections.filter fun c => decide (c.1 ∉ liveOutputRefs m) }

/-- `syncOscillatorNode`: create/refresh the oscillator node when
`oscillator.running`, otherwise stop, disconnect and drop it. -/
def syncOscillatorNode (m : EngineModel) : EngineModel :=
  if m.state.oscillator.running then
    { m with oscNode := some ⟨m.state.oscillator.type, m.state.oscillator.frequency⟩ }
  else
    match m.oscNode with
    | some _ =>
      { m with oscNode := none
               connections := m.connections.filter fun c => decide (c.1 ≠ .osc) }
    | none => m

/-- `syncMicSource`: recreate the capture-source node from the retained
stream when the microphone is enabled and no node exists yet. -/
def syncMicSource (m : EngineModel) : EngineModel :=
  if !m.state.mic then m
  else if m.micSource then m
  else if m.micStream then { m with micSource := true }
  else m

/-- Source resolution: the four-branch effective-source choice, returning
the chosen source node (if any) and the corrected source type. -/
def chooseSource (m : EngineModel) : Option NodeRef × SourceType :=
  if m.state.source = .microphone ∧ m.micSource then
    (some .mic, m.state.source)
  else if m.state.source = .oscillator ∧ m.oscNode.isSome then
    (some .osc, m.state.source)
  else if m.state.source = .microphone ∧ ¬m.micSource ∧ m.oscNode.isSome then
    (some .osc, .oscillator)
  else if m.state.source = .oscillator ∧ m.oscNode.isNone ∧ m.micSource then
    (some .mic, .microphone)
  else
    (none, m.state.source)

/-- `ensureStageInstance` followed by the unconditional
`instance.update(stageState.params)`: returns the table with the (possibly
newly created) updated instance, and that instance. -/
def ensureUpdate (s : StageState) (tbl : InstTable) : InstTable × InstanceModel :=
  match tblFind tbl s.id with
  | some inst =>
    let inst := { inst with node := instanceUpdate inst.kind s.params inst.node }
    (tblSet tbl s.id inst, inst)
  | none =>
    let inst : InstanceModel := ⟨s.kind, createNodeState s.kind s.params⟩
    let inst := { inst with node := instanceUpdate inst.kind s.params inst.node }
    (tbl ++ [(s.id, inst)], inst)

/-- Result of the stage walk: the updated instance table, the connections
made, the final tail node, and the collected active ids. -/
structure WalkResult where
  tbl : InstTable
  conns : List Conn
  tail : NodeRef
  active : List String

/-- The stage walk: for each stage, ensure and update its instance; a
non-bypassed stage receives `tail → entry` and advances the tail to its
exit, a bypassed stage receives no connection and does not move the tail. -/
def chainWalk (tbl : InstTable) (tail : NodeRef) : List StageState → WalkResult
  | [] => ⟨tbl, [], tail, []⟩
  | s :: rest =>
    let r := ensureUpdate s tbl
    if s.bypassed then
      let w := chainWalk r.1 tail rest
      ⟨w.tbl, w.conns, w.tail, s.id :: w.active⟩
    else
      let w := chainWalk r.1 (exitRef r.2.kind s.id) rest
      ⟨w.tbl, (tail, entryRef r.2.kind s.id) :: w.conns, w.tail, s.id :: w.active⟩

/-- Garbage collection: every instance keyed by an id not in `active` is
disposed (its outgoing connections removed, its id logged) and evicted. -/
def gcPass (active : List String) :
    InstTable → List Conn → List String → InstTable × List Conn × List String
  | [], conns, log => ([], conns, log)
  | (id, inst) :: rest, conns, log =>
    if id ∈ active then
      let r := gcPass active rest conns log
      ((id, inst) :: r.1, r.2.1, r.2.2)
    else
      gcPass active rest
        (conns.filter fun c => decide (c.1 ∉ instRefs inst.kind id))
        (log ++ [id])

/-- The source-correction step of the rebuild: when the chosen type differs
from the declared source, correct `state.source` and emit a snapshot. -/
def applyCorrection (chosenType : SourceType) (m : EngineModel) : EngineModel :=
  if chosenType ≠ m.state.source then
    let m := { m with state := { m.state with source := chosenType } }
    { m with emitted := m.state :: m.emitted }
  else m

/-- The chain-building tail of the rebuild: walk the stages, garbage
collect, connect the final tail to the sink fan-out. -/
def rebuildChainPhase (src : NodeRef) (m : EngineModel) : EngineModel :=
  let w := chainWalk m.instances src m.state.stages
  let g := gcPass w.active w.tbl (m.connections ++ w.conns) m.disposeLog
  { m with instances := g.1
           connections := g.2.1 ++ [(w.tail, .master), (w.tail, .analyser)]
           disposeLog := g.2.2 }

/-- Source resolution and everything after it. -/
def rebuildResolved (m : EngineModel) : EngineModel :=
  let c := chooseSource m
  let m := applyCorrection c.2 m
  match c.1 with
  | none => m
  | some src => rebuildChainPhase src m

/-- Phases 1–2 of the rebuild: disconnect outputs, then reconcile the
source nodes with declared state. -/
def syncPhase (m : EngineModel) : EngineModel :=
  syncMicSource (syncOscillatorNode (disconnectOutputs m))

/-- `rebuildSignalChain`. -/
def rebuildSignalChain (m : EngineModel) : EngineModel :=
  if !m.ctx then m
  else rebuildResolved (syncPhase m)

/-- `updateState`: mutate, emit a snapshot, rebuild. -/
def updateState (f : EngineState → EngineState) (m : EngineModel) : EngineModel :=
  let m := { m with state := f m.state }
  let m := { m with emitted := m.state :: m.emitted }
  rebuildSignalChain m

/-! ## The command API -/

/-- `startOscillator`. -/
def startOscillator (m : EngineModel) : EngineModel :=
  updateState (fun s =>
    { s with oscillator := { s.oscillator with running := true }
             source := .oscillator }) m

/-- `stopOscillator`. -/
def stopOscillator (m : EngineModel) : EngineModel :=
  updateState (fun s =>
    { s with oscillator := { s.oscillator with running := false } }) m

/-- `setFrequency` (note: no clamping in the source). -/
def setFrequency (hz : JSNum) (m : EngineModel) : EngineModel :=
  updateState (fun s =>
    { s with oscillator := { s.oscillator with frequency := hz } }) m

/-- `setType`. -/
def setType (t : WaveformType) (m : EngineModel) : EngineModel :=
  updateState (fun s =>
    { s with oscillator := { s.oscillator with type := t } }) m

/-- `enableMicrophone`; `ok` is the outcome of the external
`getUserMedia` acquisition (`false` = the promise rejected, in which case
the exception propagates before any mutation). -/
def enableMicrophone (ok : Bool) (m : EngineModel) : EngineModel :=
  if !m.ctx then m
  else if m.micSource then
    updateState (fun s => { s with mic := true, source := .microphone }) m
  else if ok then
    let m := { m with micStream := true, micSource := true }
    updateState (fun s => { s with mic := true, source := .microphone }) m
  else m

/-- `disableMicrophone`: stop the tracks, disconnect and drop the capture
source, then fall back to the oscillator if it was the declared source. -/
def disableMicrophone (m : EngineModel) : EngineModel :=
  let m :=
    if m.micSource then
      { m with connections := m.connections.filter fun c => decide (c.1 ≠ .mic) }
    else m
  let m := { m with micStream := false, micSource := false }
  updateState (fun s =>
    { s with mic := false
             source := if s.source = .microphone then .oscillator else s.source }) m

/-- `setSource`: returns `false` without mutating when the microphone is
requested while not enabled. -/
def setSource (src : SourceType) (m : EngineModel) : EngineModel × Bool :=
  if src = .microphone ∧ !m.state.mic then (m, false)
  else (updateState (fun s => { s with source := src }) m, true)

/-- Replace the first stage whose id matches (the `find`-then-mutate
pattern). -/
def setFirstStage (id : String) (f : StageState → StageState) :
    List StageState → List StageState
  | [] => []
  | s :: rest =>
    if s.id = id then f s :: rest else s :: setFirstStage id f rest

/-- `setStageBypass`. -/
def setStageBypass (id : String) (b : Bool) (m : EngineModel) : EngineModel :=
  updateState (fun st =>
    { st with stages := setFirstStage id (fun s => { s with bypassed := b }) st.stages }) m

/-- JS object spread `{...old, ...upd}`: keys of `old` keep their position
with overridden values; new keys are appended in `upd`'s order. -/
def mergeParams (old upd : Params) : Params :=
  (old.map fun kv => (kv.1, (lookupParam upd kv.1).getD kv.2))
    ++ upd.filter fun kv => decide (lookupParam old kv.1 = none)

/-- `setStageParams`. -/
def setStageParams (id : String) (p : Params) (m : EngineModel) : EngineModel :=
  updateState (fun st =>
    { st with stages :=
        setFirstStage id (fun s => { s with params := mergeParams s.params p }) st.stages }) m

/-- Insertion used by `addStage`: after `afterId` when given and found,
else appended. -/
def insertStage (afterId : Option String) (ns : StageState) :
    List StageState → List StageState
  | [] => [ns]
  | s :: rest =>
    match afterId with
    | some a => if s.id = a then s :: ns :: rest else s :: insertStage afterId ns rest
    | none => s :: (insertStage none ns rest)

/-- `addStage`: `newId` is the freshly generated random id.  With an
unregistered kind, `getDefaultParams` throws while constructing the new
stage, before any state mutation: the call fails with the state untouched
and nothing emitted. -/
inductive EngineError where
  | unknownStageKind
deriving DecidableEq, Repr

/-- `addStage` (see `EngineError`). -/
def addStage (kind newId : String) (afterId : Option String) (m : EngineModel) :
    EngineModel × Except EngineError String :=
  match getDefaultParams kind with
  | none => (m, .error .unknownStageKind)
  | some defaults =>
    let ns : StageState := ⟨newId, kind, false, defaults⟩
    (updateState (fun st => { st with stages := insertStage afterId ns st.stages }) m,
     .ok newId)

/-- Removal of the first stage whose id matches (`findIndex` + `splice`). -/
def removeFirstStage (id : String) : List StageState → List StageState
  | [] => []
  | s :: rest => if s.id = id then rest else s :: removeFirstStage id rest

/-- `removeStage`. -/
def removeStage (id : String) (m : EngineModel) : EngineModel :=
  updateState (fun st => { st with stages := removeFirstStage id st.stages }) m

/-- `moveStage` direction. -/
inductive MoveDirection where
  | up
  | down
deriving DecidableEq, Repr

/-- The list mutation performed by `moveStage`. -/
def moveStageList (id : String) (dir : MoveDirection) (stages : List StageState) :
    List StageState :=
  match stages.findIdx? (fun s => s.id = id) with
  | none => stages
  | some i =>
    let j := match dir with
      | .up => i - 1
      | .down => i + 1
    if dir = .up ∧ i = 0 then stages
    else if j ≥ stages.length then stages
    else
      match stages[i]? with
      | none => stages
      | some s => (stages.eraseIdx i).insertIdx j s

/-- `moveStage`. -/
def moveStage (id : String) (dir : MoveDirection) (m : EngineModel) : EngineModel :=
  updateState (fun st => { st with stages := moveStageList id dir st.stages }) m

/-- The engine right after construction and `init()`:
`masterGain.connect(ctx.destination)`, an initial emit, then a rebuild. -/
def initModel : EngineModel :=
  rebuildSignalChain
    { ctx := true
      state := initEngineState
      oscNode := none
      micStream := false
      micSource := false
      instances := []
      connections := [(.master, .destination)]
      emitted := [initEngineState]
      disposeLog := [] }

/-- Fresh-id side condition for `addStage`: the randomly generated id is
new to both the stage list and the instance table (models the uniqueness
the id generation must guarantee for the process lifetime). -/
def FreshId (id : String) (m : EngineModel) : Prop :=
  (∀ s ∈ m.state.stages, s.id ≠ id) ∧ ∀ p ∈ m.instances, p.1 ≠ id

/-- Reachable engine states: everything obtainable from the initialised
engine through the command API. -/
inductive Reachable : EngineModel → Prop where
  | init : Reachable initModel
  | startOscillator {m} : Reachable m → Reachable (startOscillator m)
  | stopOscillator {m} : Reachable m → Reachable (stopOscillator m)
  | setFrequency {m} (hz : JSNum) : Reachable m → Reachable (setFrequency hz m)
  | setType {m} (t : WaveformType) : Reachable m → Reachable (setType t m)
  | enableMicrophone {m} (ok : Bool) : Reachable m → Reachable (enableMicrophone ok m)
  | disableMicrophone {m} : Reachable m → Reachable (disableMicrophone m)
  | setSource {m} (src : SourceType) : Reachable m → Reachable (setSource src m).1
  | setStageBypass {m} (id : String) (b : Bool) :
      Reachable m → Reachable (setStageBypass id b m)
  | setStageParams {m} (id : String) (p : Params) :
      Reachable m → Reachable (setStageParams id p m)
  | addStage {m} (kind newId : String) (afterId : Option String) :
      FreshId newId m → Reachable m → Reachable (addStage kind newId afterId m).1
  | removeStage {m} (id : String) : Reachable m → Reachable (removeStage id m)
  | moveStage {m} (id : String) (dir : MoveDirection) :
      Reachable m → Reachable (moveStage id dir m)

/-! ## Specification of the rebuilt topology -/

/-- The source node the declared `state.source` resolves to, if it exists. -/
def sourceNodeOf (m : EngineModel) : Option NodeRef :=
  match m.state.source with
  | .oscillator => if m.oscNode.isSome then some .osc else none
  | .microphone => if m.micSource then some .mic else none

/-- The chain connections a list of (non-bypassed) stages should receive,
starting from `tail`: `tail → entry s₁`, `exit s₁ → entry s₂`, …; returns
the connection list and the final tail. -/
def specConns (tail : NodeRef) : List StageState → List Conn × NodeRef
  | [] => ([], tail)
  | s :: rest =>
    let w := specConns (exitRef s.kind s.id) rest
    ((tail, entryRef s.kind s.id) :: w.1, w.2)

/-- The chain connections a rebuild must leave in place: effective source
through every non-bypassed stage in order, the final tail fanning out to
the master output and the analysis tap; empty when no source node exists. -/
def expectedChainConns (m : EngineModel) : List Conn :=
  match sourceNodeOf m with
  | none => []
  | some src =>
    let w := specConns src (m.state.stages.filter fun s => !s.bypassed)
    w.1 ++ [(w.2, .master), (w.2, .analyser)]

/-! ## Association-list lemmas -/

theorem lookup_mem {α β : Type} [BEq α] [LawfulBEq α] {l : List (α × β)} {k : α} {v : β}
    (h : List.lookup k l = some v) : (k, v) ∈ l := by
  induction l with
  | nil => simp [List.lookup] at h
  | cons p rest ih =>
    obtain ⟨pk, pv⟩ := p
    rw [List.lookup] at h
    by_cases hk : k = pk
    · subst hk
      simp at h
      subst h
      exact List.mem_cons_self _ _
    · simp [beq_false_of_ne hk] at h
      exact List.mem_cons_of_mem _ (ih h)

theorem tblSet_map_fst (tbl : InstTable) (id : String) (inst : InstanceModel) :
    (tblSet tbl id inst).map Prod.fst = tbl.map Prod.fst := by
  induction tbl with
  | nil => rfl
  | cons p rest ih =>
    obtain ⟨pk, pv⟩ := p
    rw [tblSet]
    by_cases h : pk = id <;> simp [h, ih]

theorem tblFind_tblSet_self {tbl : InstTable} {id : String} {v : InstanceModel}
    (h : tblFind tbl id = some v) (inst : InstanceModel) :
    tblFind (tblSet tbl id inst) id = some inst := by
  induction tbl with
  | nil => simp [tblFind, List.lookup] at h
  | cons p rest ih =>
    obtain ⟨pk, pv⟩ := p
    rw [tblFind, List.lookup] at h
    rw [tblSet]
    by_cases hk : pk = id
    · simp [tblFind, List.lookup, hk]
    · have hk' : (id == pk) = false := beq_false_of_ne (Ne.symm hk)
      simp only [hk'] at h
      simp only [if_neg hk, tblFind, List.lookup, hk']
      exact ih h

theorem tblFind_tblSet_ne {tbl : InstTable} {id k : String} (hne : k ≠ id)
    (inst : InstanceModel) :
    tblFind (tblSet tbl id inst) k = tblFind tbl k := by
  induction tbl with
  | nil => rfl
  | cons p rest ih =>
    obtain ⟨pk, pv⟩ := p
    by_cases hk : pk = id
    · subst hk
      simp [tblSet, tblFind, List.lookup, beq_false_of_ne hne]
    · by_cases hkp : k = pk
      · simp [tblSet, if_neg hk, hkp, tblFind, List.lookup]
      · simp only [tblSet, if_neg hk, tblFind, List.lookup, beq_false_of_ne hkp] at ih ⊢
        exact ih

theorem tblFind_append_right {tbl : InstTable} {k : String}
    (h : tblFind tbl k = none) (l : InstTable) :
    tblFind (tbl ++ l) k = tblFind l k := by
  induction tbl with
  | nil => rfl
  | cons p rest ih =>
    obtain ⟨pk, pv⟩ := p
    rw [tblFind, List.lookup] at h
    rw [List.cons_append, tblFind, List.lookup]
    by_cases hk : k = pk
    · simp [hk] at h
    · simp only [beq_false_of_ne hk] at h ⊢
      exact ih h

theorem tblFind_isSome_append {tbl : InstTable} {k : String}
    (h : (tblFind tbl k).isSome) (l : InstTable) :
    tblFind (tbl ++ l) k = tblFind tbl k := by
  induction tbl with
  | nil => simp [tblFind, List.lookup] at h
  | cons p rest ih =>
    obtain ⟨pk, pv⟩ := p
    rw [tblFind, List.lookup] at h
    rw [List.cons_append, tblFind, List.lookup]
    by_cases hk : k = pk
    · simp [hk, tblFind, List.lookup]
    · simp only [beq_false_of_ne hk] at h ⊢
      rw [tblFind, List.lookup, beq_false_of_ne hk]
      exact ih h

theorem tblFind_none_iff {tbl : InstTable} {k : String} :
    tblFind tbl k = none ↔ k ∉ tbl.map Prod.fst := by
  induction tbl with
  | nil => simp [tblFind, List.lookup]
  | cons p rest ih =>
    obtain ⟨pk, pv⟩ := p
    rw [tblFind, List.lookup]
    by_cases hk : k = pk
    · simp [hk]
    · simp only [beq_false_of_ne hk, List.map_cons, List.mem_cons, tblFind] at ih ⊢
      constructor
      · intro h
        exact fun hor => hor.elim (fun he => hk he) (fun hm => ih.1 h hm)
      · intro h
        exact ih.2 fun hm => h (Or.inr hm)

theorem tblFind_filter_active {tbl : InstTable} {k : String} {active : List String}
    (hk : k ∈ active) :
    tblFind (tbl.filter fun p => decide (p.1 ∈ active)) k = tblFind tbl k := by
  induction tbl with
  | nil => rfl
  | cons p rest ih =>
    obtain ⟨pk, pv⟩ := p
    by_cases hm : pk ∈ active
    · simp only [List.filter_cons, decide_eq_true hm, tblFind, List.lookup]
      by_cases hkp : k = pk
      · simp [hkp]
      · simp only [beq_false_of_ne hkp]
        exact ih
    · have hne : k ≠ pk := fun he => hm (he ▸ hk)
      simp only [List.filter_cons]
      rw [decide_eq_false hm]
      simp only [tblFind, List.lookup, beq_false_of_ne hne]
      exact ih

/-- Uniqueness of stages by id under a `Nodup` id list. -/
theorem nodup_id_unique {l : List StageState} (hnd : (l.map StageState.id).Nodup)
    {s t : StageState} (hs : s ∈ l) (ht : t ∈ l) (h : s.id = t.id) : s = t := by
  induction l with
  | nil => cases hs
  | cons a rest ih =>
    rw [List.map_cons, List.nodup_cons] at hnd
    rcases List.mem_cons.mp hs with hs1 | hs2
    · rcases List.mem_cons.mp ht with ht1 | ht2
      · rw [hs1, ht1]
      · exfalso
        apply hnd.1
        have h2 : t.id ∈ List.map StageState.id rest := List.mem_map_of_mem StageState.id ht2
        rw [← hs1, h]
        exact h2
    · rcases List.mem_cons.mp ht with ht1 | ht2
      · exfalso
        apply hnd.1
        have h2 : s.id ∈ List.map StageState.id rest := List.mem_map_of_mem StageState.id hs2
        rw [← ht1, ← h]
        exact h2
      · exact ih hnd.2 hs2 ht2

/-! ## The engine invariant -/

/-- Instance kinds agree with the kinds of same-id stages. -/
def KindsOk (tbl : InstTable) (stages : List StageState) : Prop :=
  ∀ p ∈ tbl, ∀ s ∈ stages, s.id = p.1 → s.kind = p.2.kind

/-- The part of the invariant available at rebuild entry (after an
arbitrary command's state mutation, before the rebuild). -/
structure MidInv (m : EngineModel) : Prop where
  ctx : m.ctx = true
  micSourceEq : m.micSource = m.state.mic
  micStreamEq : m.micStream = m.state.mic
  srcMic : m.state.source = .microphone → m.state.mic = true
  kindsReg : ∀ s ∈ m.state.stages, (STAGE_REGISTRY s.kind).isSome = true
  instKind : KindsOk m.instances m.state.stages
  instKeysNodup : (m.instances.map Prod.fst).Nodup
  stageIdsNodup : (m.state.stages.map StageState.id).Nodup
  connsForm : ∃ rest, m.connections = (.master, .destination) :: rest ∧
      ∀ c ∈ rest, c.1 ∈ liveOutputRefs m

/-- The full invariant, holding after every rebuild (hence in every
reachable state). -/
structure Inv (m : EngineModel) : Prop where
  ctx : m.ctx = true
  oscMirror : m.oscNode =
    if m.state.oscillator.running then
      some ⟨m.state.oscillator.type, m.state.oscillator.frequency⟩
    else none
  micSourceEq : m.micSource = m.state.mic
  micStreamEq : m.micStream = m.state.mic
  srcMic : m.state.source = .microphone → m.state.mic = true
  srcOsc : m.state.source = .oscillator → m.state.oscillator.running = false →
      m.state.mic = false
  kindsReg : ∀ s ∈ m.state.stages, (STAGE_REGISTRY s.kind).isSome = true
  instKind : KindsOk m.instances m.state.stages
  instKeysNodup : (m.instances.map Prod.fst).Nodup
  stageIdsNodup : (m.state.stages.map StageState.id).Nodup
  instCover : (sourceNodeOf m).isSome →
      ∀ s ∈ m.state.stages, (tblFind m.instances s.id).isSome = true
  connsExact : m.connections = (.master, .destination) :: expectedChainConns m

/-! ## Properties of `ensureUpdate` and the stage walk -/

theorem ensureUpdate_kind {s : StageState} {tbl : InstTable}
    (h : ∀ inst, tblFind tbl s.id = some inst → inst.kind = s.kind) :
    (ensureUpdate s tbl).2.kind = s.kind := by
  unfold ensureUpdate
  cases hf : tblFind tbl s.id with
  | none => rfl
  | some inst => exact h inst hf

theorem ensureUpdate_map_fst_found {s : StageState} {tbl : InstTable}
    (h : (tblFind tbl s.id).isSome) :
    (ensureUpdate s tbl).1.map Prod.fst = tbl.map Prod.fst := by
  unfold ensureUpdate
  cases hf : tblFind tbl s.id with
  | none => rw [hf] at h; cases h
  | some inst => exact tblSet_map_fst tbl s.id _

theorem ensureUpdate_map_fst_new {s : StageState} {tbl : InstTable}
    (h : tblFind tbl s.id = none) :
    (ensureUpdate s tbl).1.map Prod.fst = tbl.map Prod.fst ++ [s.id] := by
  unfold ensureUpdate
  rw [h]
  simp

theorem ensureUpdate_find_self (s : StageState) (tbl : InstTable) :
    tblFind (ensureUpdate s tbl).1 s.id = some (ensureUpdate s tbl).2 := by
  unfold ensureUpdate
  cases hf : tblFind tbl s.id with
  | none =>
    rw [tblFind_append_right hf]
    simp [tblFind, List.lookup]
  | some inst => exact tblFind_tblSet_self hf _

theorem ensureUpdate_find_ne {s : StageState} {k : String} (hne : k ≠ s.id)
    (tbl : InstTable) :
    tblFind (ensureUpdate s tbl).1 k = tblFind tbl k := by
  unfold ensureUpdate
  cases hf : tblFind tbl s.id with
  | none =>
    cases hk : tblFind tbl k with
    | none =>
      rw [tblFind_append_right hk]
      simp [tblFind, List.lookup, beq_false_of_ne hne]
    | some v =>
      rw [tblFind_isSome_append (by rw [hk]; rfl), hk]
  | some inst => exact tblFind_tblSet_ne hne _

theorem ensureUpdate_find_isSome_mono {s : StageState} {k : String} {tbl : InstTable}
    (h : (tblFind tbl k).isSome) :
    (tblFind (ensureUpdate s tbl).1 k).isSome := by
  by_cases hk : k = s.id
  · subst hk
    rw [ensureUpdate_find_self]
    rfl
  · rw [ensureUpdate_find_ne hk]
    exact h

theorem mem_tblSet {tbl : InstTable} {id : String} {inst p : String × InstanceModel}
    (h : p ∈ tblSet tbl id inst.2) :
    p ∈ tbl ∨ (p.1 = id ∧ p.2 = inst.2) := by
  induction tbl with
  | nil => cases h
  | cons q rest ih =>
    obtain ⟨qk, qv⟩ := q
    rw [tblSet] at h
    by_cases hq : qk = id
    · rw [if_pos hq] at h
      rcases List.mem_cons.mp h with h1 | h2
      · right
        rw [h1, hq]
        exact ⟨rfl, rfl⟩
      · exact Or.inl (List.mem_cons_of_mem _ h2)
    · rw [if_neg hq] at h
      rcases List.mem_cons.mp h with h1 | h2
      · exact Or.inl (h1 ▸ List.mem_cons_self _ _)
      · rcases ih h2 with h3 | h3
        · exact Or.inl (List.mem_cons_of_mem _ h3)
        · exact Or.inr h3

/-- Every entry of the table produced by `ensureUpdate` either refines an
original entry (same id, same kind) or is the freshly created instance of
`s` (id `s.id`, kind `s.kind`). -/
theorem mem_ensureUpdate {s : StageState} {tbl : InstTable} {p : String × InstanceModel}
    (h : p ∈ (ensureUpdate s tbl).1) :
    (∃ q ∈ tbl, q.1 = p.1 ∧ q.2.kind = p.2.kind) ∨ (p.1 = s.id ∧ p.2.kind = s.kind) := by
  unfold ensureUpdate at h
  cases hf : tblFind tbl s.id with
  | none =>
    rw [hf] at h
    rcases List.mem_append.mp h with h1 | h2
    · exact Or.inl ⟨p, h1, rfl, rfl⟩
    · rcases List.mem_singleton.mp h2 with h3
      right
      rw [h3]
      exact ⟨rfl, rfl⟩
  | some inst =>
    rw [hf] at h
    rcases @mem_tblSet _ _ ⟨s.id, _⟩ _ h with h1 | h2
    · exact Or.inl ⟨p, h1, rfl, rfl⟩
    · left
      refine ⟨(s.id, inst), lookup_mem hf, h2.1.symm, ?_⟩
      rw [h2.2]

theorem kindsOk_head_find {tbl : InstTable} {s : StageState} {rest : List StageState}
    (hk : KindsOk tbl (s :: rest)) :
    ∀ inst, tblFind tbl s.id = some inst → inst.kind = s.kind :=
  fun inst hf => (hk (s.id, inst) (lookup_mem hf) s (List.mem_cons_self _ _) rfl).symm

theorem kindsOk_ensure_rest {tbl : InstTable} {s : StageState} {rest : List StageState}
    (hk : KindsOk tbl (s :: rest)) (hnid : s.id ∉ rest.map StageState.id) :
    KindsOk (ensureUpdate s tbl).1 rest := by
  intro p hp s' hs' hid
  rcases mem_ensureUpdate hp with ⟨q, hq, hq1, hq2⟩ | ⟨h1, h2⟩
  · rw [← hq2]
    exact hk q hq s' (List.mem_cons_of_mem _ hs') (hq1 ▸ hid)
  · exfalso
    apply hnid
    rw [← h1, ← hid]
    exact List.mem_map_of_mem StageState.id hs'

/-- The walk produces exactly the specified chain connections over the
non-bypassed stages, ends at the specified tail, and collects every stage
id as active. -/
theorem chainWalk_spec :
    ∀ (stages : List StageState) (tbl : InstTable) (tail : NodeRef),
    KindsOk tbl stages → (stages.map StageState.id).Nodup →
    (chainWalk tbl tail stages).conns
        = (specConns tail (stages.filter fun s => !s.bypassed)).1
      ∧ (chainWalk tbl tail stages).tail
        = (specConns tail (stages.filter fun s => !s.bypassed)).2
      ∧ (chainWalk tbl tail stages).active = stages.map StageState.id := by
  intro stages
  induction stages with
  | nil => intro tbl tail _ _; exact ⟨rfl, rfl, rfl⟩
  | cons s rest ih =>
    intro tbl tail hk hnd
    rw [List.map_cons, List.nodup_cons] at hnd
    have hik : (ensureUpdate s tbl).2.kind = s.kind :=
      ensureUpdate_kind (kindsOk_head_find hk)
    have hkr : KindsOk (ensureUpdate s tbl).1 rest := kindsOk_ensure_rest hk hnd.1
    by_cases hb : s.bypassed
    · have hr := ih (ensureUpdate s tbl).1 tail hkr hnd.2
      simp only [chainWalk, hb, if_true, List.filter_cons, Bool.not_true,
        List.map_cons]
      exact ⟨hr.1, hr.2.1, by rw [hr.2.2]⟩
    · have hr := ih (ensureUpdate s tbl).1 (exitRef s.kind s.id) hkr hnd.2
      simp only [chainWalk, hb, Bool.false_eq_true, if_false, List.filter_cons, List.map_cons, hik,
        Bool.not_false, specConns]
      refine ⟨?_, hr.2.1, by rw [hr.2.2]⟩
      rw [hr.1]

/-- Every key of the walked table comes from the original table or from the
walked stages, and key distinctness is preserved. -/
theorem chainWalk_keys :
    ∀ (stages : List StageState) (tbl : InstTable) (tail : NodeRef),
    (tbl.map Prod.fst).Nodup →
    (∀ k, k ∈ (chainWalk tbl tail stages).tbl.map Prod.fst →
        k ∈ tbl.map Prod.fst ∨ k ∈ stages.map StageState.id)
      ∧ ((chainWalk tbl tail stages).tbl.map Prod.fst).Nodup := by
  intro stages
  induction stages with
  | nil => intro tbl tail hnd; exact ⟨fun k hk => Or.inl hk, hnd⟩
  | cons s rest ih =>
    intro tbl tail hnd
    have hnd1 : ((ensureUpdate s tbl).1.map Prod.fst).Nodup := by
      cases hf : tblFind tbl s.id with
      | none =>
        rw [ensureUpdate_map_fst_new hf]
        have hout : s.id ∉ tbl.map Prod.fst := tblFind_none_iff.mp hf
        simp [List.nodup_append, hnd, hout]
      | some v =>
        rw [ensureUpdate_map_fst_found (by rw [hf]; rfl)]
        exact hnd
    have hsub : ∀ k, k ∈ (ensureUpdate s tbl).1.map Prod.fst →
        k ∈ tbl.map Prod.fst ∨ k = s.id := by
      intro k hmem
      cases hf : tblFind tbl s.id with
      | none =>
        rw [ensureUpdate_map_fst_new hf] at hmem
        rcases List.mem_append.mp hmem with h1 | h2
        · exact Or.inl h1
        · exact Or.inr (List.mem_singleton.mp h2)
      | some v =>
        rw [ensureUpdate_map_fst_found (by rw [hf]; rfl)] at hmem
        exact Or.inl hmem
    by_cases hb : s.bypassed
    · have hr := ih (ensureUpdate s tbl).1 tail hnd1
      simp only [chainWalk, hb, if_true]
      refine ⟨fun k hk => ?_, hr.2⟩
      rcases hr.1 k hk with h1 | h2
      · rcases hsub k h1 with h3 | h3
        · exact Or.inl h3
        · exact Or.inr (by simp [h3])
      · exact Or.inr (by simp [h2])
    · have hr := ih (ensureUpdate s tbl).1
        (exitRef (ensureUpdate s tbl).2.kind s.id) hnd1
      simp only [chainWalk, hb, Bool.false_eq_true, if_false]
      refine ⟨fun k hk => ?_, hr.2⟩
      rcases hr.1 k hk with h1 | h2
      · rcases hsub k h1 with h3 | h3
        · exact Or.inl h3
        · exact Or.inr (by simp [h3])
      · exact Or.inr (by simp [h2])

/-- Every entry of the walked table refines an original entry or carries
the id and kind of one of the walked stages. -/
theorem chainWalk_kinds :
    ∀ (stages : List StageState) (tbl : InstTable) (tail : NodeRef),
    ∀ p ∈ (chainWalk tbl tail stages).tbl,
    (∃ q ∈ tbl, q.1 = p.1 ∧ q.2.kind = p.2.kind)
      ∨ (∃ s ∈ stages, s.id = p.1 ∧ s.kind = p.2.kind) := by
  intro stages
  induction stages with
  | nil => intro tbl tail p hp; exact Or.inl ⟨p, hp, rfl, rfl⟩
  | cons s rest ih =>
    intro tbl tail p hp
    have step : p ∈ (chainWalk (ensureUpdate s tbl).1 tail rest).tbl ∨
        p ∈ (chainWalk (ensureUpdate s tbl).1
              (exitRef (ensureUpdate s tbl).2.kind s.id) rest).tbl →
        (∃ q ∈ tbl, q.1 = p.1 ∧ q.2.kind = p.2.kind)
          ∨ (∃ s' ∈ s :: rest, s'.id = p.1 ∧ s'.kind = p.2.kind) := by
      intro hp2
      have hp' : (∃ q ∈ (ensureUpdate s tbl).1, q.1 = p.1 ∧ q.2.kind = p.2.kind)
          ∨ (∃ s' ∈ rest, s'.id = p.1 ∧ s'.kind = p.2.kind) := by
        rcases hp2 with h | h
        · exact ih _ tail p h
        · exact ih _ _ p h
      rcases hp' with ⟨q, hq, hq1, hq2⟩ | ⟨s', hs', h1, h2⟩
      · rcases mem_ensureUpdate hq with ⟨q', hq', h1', h2'⟩ | ⟨h1', h2'⟩
        · exact Or.inl ⟨q', hq', h1'.trans hq1, h2'.trans hq2⟩
        · exact Or.inr ⟨s, List.mem_cons_self _ _, h1' ▸ hq1, h2' ▸ hq2⟩
      · exact Or.inr ⟨s', List.mem_cons_of_mem _ hs', h1, h2⟩
    by_cases hb : s.bypassed
    · simp only [chainWalk, hb, if_true] at hp
      exact step (Or.inl hp)
    · simp only [chainWalk, hb, Bool.false_eq_true, if_false] at hp
      exact step (Or.inr hp)

/-- Lookups that succeed before the walk still succeed after it. -/
theorem chainWalk_find_mono :
    ∀ (stages : List StageState) (tbl : InstTable) (tail : NodeRef) (k : String),
    (tblFind tbl k).isSome → (tblFind (chainWalk tbl tail stages).tbl k).isSome := by
  intro stages
  induction stages with
  | nil => intro tbl tail k h; exact h
  | cons s rest ih =>
    intro tbl tail k h
    by_cases hb : s.bypassed
    · simp only [chainWalk, hb, if_true]
      exact ih _ tail k (ensureUpdate_find_isSome_mono h)
    · simp only [chainWalk, hb, Bool.false_eq_true, if_false]
      exact ih _ _ k (ensureUpdate_find_isSome_mono h)

/-- After the walk, every walked stage id has an instance. -/
theorem chainWalk_cover :
    ∀ (stages : List StageState) (tbl : InstTable) (tail : NodeRef),
    ∀ s ∈ stages, (tblFind (chainWalk tbl tail stages).tbl s.id).isSome := by
  intro stages
  induction stages with
  | nil => intro tbl tail s hs; cases hs
  | cons s rest ih =>
    intro tbl tail t ht
    have hself : (tblFind (ensureUpdate s tbl).1 s.id).isSome := by
      rw [ensureUpdate_find_self]
      rfl
    rcases List.mem_cons.mp ht with h1 | h2
    · subst h1
      by_cases hb : t.bypassed
      · simp only [chainWalk, hb, if_true]
        exact chainWalk_find_mono rest _ tail t.id hself
      · simp only [chainWalk, hb, Bool.false_eq_true, if_false]
        exact chainWalk_find_mono rest _ _ t.id hself
    · by_cases hb : s.bypassed
      · simp only [chainWalk, hb, if_true]
        exact ih _ tail t h2
      · simp only [chainWalk, hb, Bool.false_eq_true, if_false]
        exact ih _ _ t h2

/-! ## Garbage collection and node-reference discrimination -/

theorem mem_instRefs {r : NodeRef} {k id : String} (h : r ∈ instRefs k id) :
    r = .stageNode id ∨ r = .stageIn id ∨ r = .stageOut id := by
  unfold instRefs at h
  by_cases hk : k = "delay" <;> simp [hk] at h
  · rcases h with h | h
    · exact Or.inr (Or.inl h)
    · exact Or.inr (Or.inr h)
  · exact Or.inl h

theorem master_not_instRefs {k id : String} : NodeRef.master ∉ instRefs k id := by
  intro h
  rcases mem_instRefs h with h | h | h <;> cases h

theorem osc_not_instRefs {k id : String} : NodeRef.osc ∉ instRefs k id := by
  intro h
  rcases mem_instRefs h with h | h | h <;> cases h

theorem mic_not_instRefs {k id : String} : NodeRef.mic ∉ instRefs k id := by
  intro h
  rcases mem_instRefs h with h | h | h <;> cases h

theorem exitRef_mem_instRefs {k1 id1 k id : String}
    (h : exitRef k1 id1 ∈ instRefs k id) : id1 = id := by
  unfold exitRef at h
  by_cases hk1 : k1 = "delay"
  · rw [if_pos hk1] at h
    rcases mem_instRefs h with h | h | h <;> (cases h <;> rfl)
  · rw [if_neg hk1] at h
    rcases mem_instRefs h with h | h | h <;> (cases h <;> rfl)

/-- Sources of the specified chain connections: the starting tail or the
exit of one of the stages; likewise for the final tail. -/
theorem specConns_src :
    ∀ (l : List StageState) (tail : NodeRef),
    (∀ c ∈ (specConns tail l).1, c.1 = tail ∨ ∃ s ∈ l, c.1 = exitRef s.kind s.id)
      ∧ ((specConns tail l).2 = tail ∨ ∃ s ∈ l, (specConns tail l).2 = exitRef s.kind s.id) := by
  intro l
  induction l with
  | nil => intro tail; exact ⟨fun c hc => absurd hc (List.not_mem_nil c), Or.inl rfl⟩
  | cons s rest ih =>
    intro tail
    constructor
    · intro c hc
      simp only [specConns] at hc
      rcases List.mem_cons.mp hc with h1 | h2
      · left
        rw [h1]
      · rcases (ih (exitRef s.kind s.id)).1 c h2 with h3 | ⟨t, ht, h4⟩
        · exact Or.inr ⟨s, List.mem_cons_self _ _, h3⟩
        · exact Or.inr ⟨t, List.mem_cons_of_mem _ ht, h4⟩
    · simp only [specConns]
      rcases (ih (exitRef s.kind s.id)).2 with h3 | ⟨t, ht, h4⟩
      · exact Or.inr ⟨s, List.mem_cons_self _ _, h3⟩
      · exact Or.inr ⟨t, List.mem_cons_of_mem _ ht, h4⟩

/-- When no connection originates from a to-be-disposed instance's nodes,
garbage collection filters the table, leaves the connections untouched and
logs exactly the evicted ids. -/
theorem gcPass_spec :
    ∀ (tbl : InstTable) (conns : List Conn) (log : List String) (active : List String),
    (∀ c ∈ conns, ∀ p ∈ tbl, p.1 ∉ active → c.1 ∉ instRefs p.2.kind p.1) →
    gcPass active tbl conns log =
      ((tbl.filter fun p => decide (p.1 ∈ active)), conns,
       log ++ (tbl.filter fun p => decide (p.1 ∉ active)).map Prod.fst) := by
  intro tbl
  induction tbl with
  | nil => intro conns log active _; simp [gcPass]
  | cons p rest ih =>
    intro conns log active hc
    obtain ⟨id, inst⟩ := p
    by_cases ha : id ∈ active
    · have hrest : ∀ c ∈ conns, ∀ q ∈ rest, q.1 ∉ active → c.1 ∉ instRefs q.2.kind q.1 :=
        fun c hcm q hq => hc c hcm q (List.mem_cons_of_mem _ hq)
      simp [gcPass, if_pos ha, ih conns log active hrest, List.filter_cons, ha]
    · have hfix : (conns.filter fun c => !decide (c.1 ∈ instRefs inst.kind id)) = conns := by
        apply List.filter_eq_self.mpr
        intro c hcm
        simp [hc c hcm (id, inst) (List.mem_cons_self _ _) ha]
      have hrest : ∀ c ∈ conns, ∀ q ∈ rest, q.1 ∉ active → c.1 ∉ instRefs q.2.kind q.1 :=
        fun c hcm q hq => hc c hcm q (List.mem_cons_of_mem _ hq)
      simp [gcPass, if_neg ha, hfix, ih conns (log ++ [id]) active hrest,
        List.filter_cons, ha]

/-! ## Phase lemmas for the rebuild -/

theorem master_not_liveOutputRefs (m : EngineModel) :
    NodeRef.master ∉ liveOutputRefs m := by
  intro h
  simp only [liveOutputRefs, List.mem_append, List.mem_map] at h
  rcases h with (h | h) | ⟨p, _, he⟩
  · split at h <;> simp at h
  · split at h <;> simp at h
  · unfold exitRef at he
    split at he <;> cases he

theorem sourceNodeOf_shape {m : EngineModel} {src : NodeRef}
    (h : sourceNodeOf m = some src) : src = .osc ∨ src = .mic := by
  unfold sourceNodeOf at h
  rcases hs : m.state.source with _ | _ <;> rw [hs] at h
  · by_cases ho : m.oscNode.isSome
    · rw [if_pos ho] at h
      injection h with h2
      exact Or.inl h2.symm
    · rw [if_neg ho] at h
      cases h
  · by_cases ho : m.micSource = true
    · rw [if_pos ho] at h
      injection h with h2
      exact Or.inr h2.symm
    · rw [if_neg ho] at h
      cases h

theorem disconnectOutputs_spec (m : EngineModel)
    (h : ∃ rest, m.connections = (.master, .destination) :: rest ∧
        ∀ c ∈ rest, c.1 ∈ liveOutputRefs m) :
    disconnectOutputs m = { m with connections := [(.master, .destination)] } := by
  obtain ⟨rest, hc, hr⟩ := h
  unfold disconnectOutputs
  have hfil : m.connections.filter (fun c => decide (c.1 ∉ liveOutputRefs m))
      = [(.master, .destination)] := by
    rw [hc, List.filter_cons]
    have h1 : decide ((NodeRef.master, NodeRef.destination).1 ∉ liveOutputRefs m) = true :=
      decide_eq_true (master_not_liveOutputRefs m)
    rw [h1]
    simp only [if_true]
    have h2 : rest.filter (fun c => decide (c.1 ∉ liveOutputRefs m)) = [] := by
      apply List.filter_eq_nil_iff.mpr
      intro c hcm
      simp [hr c hcm]
    rw [h2]
  rw [hfil]

theorem syncOscillatorNode_eq (m : EngineModel)
    (hconn : m.connections = [(.master, .destination)]) :
    syncOscillatorNode m =
      { m with oscNode :=
          if m.state.oscillator.running then
            some ⟨m.state.oscillator.type, m.state.oscillator.frequency⟩
          else none } := by
  unfold syncOscillatorNode
  by_cases hr : m.state.oscillator.running
  · rw [if_pos hr, if_pos hr]
  · rw [if_neg hr, if_neg hr]
    cases ho : m.oscNode with
    | none =>
      conv_rhs => rw [← ho]
    | some v =>
      have hf : m.connections.filter (fun c => decide (c.1 ≠ NodeRef.osc))
          = m.connections := by
        rw [hconn]
        rfl
      rw [hf]

theorem syncMicSource_eq (m : EngineModel) (h : m.micSource = m.state.mic) :
    syncMicSource m = m := by
  unfold syncMicSource
  cases hm : m.state.mic
  · simp [hm]
  · have h2 : m.micSource = true := by rw [h, hm]
    simp [hm, h2]

theorem syncPhase_eq (m : EngineModel) (hmv : MidInv m) :
    syncPhase m = { m with
      oscNode :=
        if m.state.oscillator.running then
          some ⟨m.state.oscillator.type, m.state.oscillator.frequency⟩
        else none,
      connections := [(.master, .destination)] } := by
  unfold syncPhase
  rw [disconnectOutputs_spec m hmv.connsForm, syncOscillatorNode_eq _ rfl,
    syncMicSource_eq]
  rw [hmv.micSourceEq]

theorem applyCorrection_eq {ct : SourceType} {m : EngineModel}
    (h : ct = m.state.source) : applyCorrection ct m = m := by
  unfold applyCorrection
  rw [if_neg (by simp [h])]

theorem applyCorrection_ne {ct : SourceType} {m : EngineModel}
    (h : ct ≠ m.state.source) :
    applyCorrection ct m =
      { m with state := { m.state with source := ct },
               emitted := { m.state with source := ct } :: m.emitted } := by
  unfold applyCorrection
  rw [if_pos h]

theorem chooseSource_mic {m : EngineModel}
    (h1 : m.state.source = .microphone) (h2 : m.micSource = true) :
    chooseSource m = (some .mic, .microphone) := by
  unfold chooseSource
  simp [h1, h2]

theorem chooseSource_osc {m : EngineModel}
    (h1 : m.state.source = .oscillator) (h2 : m.oscNode.isSome = true) :
    chooseSource m = (some .osc, .oscillator) := by
  unfold chooseSource
  simp [h1, h2]

theorem chooseSource_osc_fallback {m : EngineModel}
    (h1 : m.state.source = .oscillator) (h2 : m.oscNode = none)
    (h3 : m.micSource = true) :
    chooseSource m = (some .mic, .microphone) := by
  unfold chooseSource
  simp [h1, h2, h3]

theorem chooseSource_none_osc {m : EngineModel}
    (h1 : m.state.source = .oscillator) (h2 : m.oscNode = none)
    (h3 : m.micSource = false) :
    chooseSource m = (none, .oscillator) := by
  unfold chooseSource
  simp [h1, h2, h3]

/-! ## The rebuild re-establishes the invariant -/

theorem rebuildChainPhase_inv {m : EngineModel} {src : NodeRef}
    (hctx : m.ctx = true)
    (hosc : m.oscNode =
      if m.state.oscillator.running then
        some ⟨m.state.oscillator.type, m.state.oscillator.frequency⟩
      else none)
    (hms : m.micSource = m.state.mic) (hmst : m.micStream = m.state.mic)
    (hsrcMic : m.state.source = .microphone → m.state.mic = true)
    (hsrcOsc : m.state.source = .oscillator → m.state.oscillator.running = false →
      m.state.mic = false)
    (hreg : ∀ s ∈ m.state.stages, (STAGE_REGISTRY s.kind).isSome = true)
    (hik : KindsOk m.instances m.state.stages)
    (hknd : (m.instances.map Prod.fst).Nodup)
    (hsnd : (m.state.stages.map StageState.id).Nodup)
    (hsn : sourceNodeOf m = some src)
    (hconn : m.connections = [(.master, .destination)]) :
    Inv (rebuildChainPhase src m) := by
  obtain ⟨hwc, hwt, hwa⟩ := chainWalk_spec m.state.stages m.instances src hik hsnd
  obtain ⟨hkeysub, hkeynd⟩ := chainWalk_keys m.state.stages m.instances src hknd
  have hshape := sourceNodeOf_shape hsn
  -- the GC pass touches neither the fresh chain connections nor the sink edge
  have hgc : ∀ c ∈ m.connections ++ (chainWalk m.instances src m.state.stages).conns,
      ∀ p ∈ (chainWalk m.instances src m.state.stages).tbl,
      p.1 ∉ (chainWalk m.instances src m.state.stages).active →
      c.1 ∉ instRefs p.2.kind p.1 := by
    intro c hc p _ hpna habs
    rcases List.mem_append.mp hc with hc1 | hc2
    · rw [hconn] at hc1
      rw [List.mem_singleton.mp hc1] at habs
      exact master_not_instRefs habs
    · rw [hwc] at hc2
      rcases (specConns_src _ src).1 c hc2 with h1 | ⟨s, hsf, h1⟩
      · rw [h1] at habs
        rcases hshape with h2 | h2 <;> rw [h2] at habs
        · exact osc_not_instRefs habs
        · exact mic_not_instRefs habs
      · rw [h1] at habs
        apply hpna
        rw [hwa, ← exitRef_mem_instRefs habs]
        exact List.mem_map_of_mem StageState.id (List.mem_of_mem_filter hsf)
  have hgceq := gcPass_spec _ _ m.disposeLog _ hgc
  refine
    { ctx := hctx
      oscMirror := ?_
      micSourceEq := hms
      micStreamEq := hmst
      srcMic := hsrcMic
      srcOsc := hsrcOsc
      kindsReg := hreg
      instKind := ?_
      instKeysNodup := ?_
      stageIdsNodup := hsnd
      instCover := ?_
      connsExact := ?_ }
  · exact hosc
  · -- instance kinds still match the stages after the walk and GC
    intro p hp s hs hid
    simp only [rebuildChainPhase, hgceq] at hp
    have hp2 : p ∈ (chainWalk m.instances src m.state.stages).tbl :=
      List.mem_of_mem_filter hp
    rcases chainWalk_kinds m.state.stages m.instances src p hp2 with
      ⟨q, hq, h1, h2⟩ | ⟨t, ht, h1, h2⟩
    · rw [← h2]
      exact hik q hq s hs (by rw [hid, h1])
    · have hst : s = t := nodup_id_unique hsnd hs ht (by rw [hid, h1])
      rw [hst, h2]
  · -- instance table keys stay distinct
    simp only [rebuildChainPhase, hgceq]
    exact ((List.filter_sublist _).map Prod.fst).nodup hkeynd
  · -- every stage id has an instance
    intro _ s hs
    simp only [rebuildChainPhase, hgceq]
    have hact : s.id ∈ (chainWalk m.instances src m.state.stages).active := by
      rw [hwa]
      exact List.mem_map_of_mem StageState.id hs
    rw [tblFind_filter_active hact]
    exact chainWalk_cover m.state.stages m.instances src s hs
  · -- the connections are exactly the specified chain
    show (rebuildChainPhase src m).connections
        = (.master, .destination) :: expectedChainConns (rebuildChainPhase src m)
    have hexp : expectedChainConns (rebuildChainPhase src m) = expectedChainConns m := rfl
    rw [hexp]
    have hexp2 : expectedChainConns m =
        (specConns src (m.state.stages.filter fun s => !s.bypassed)).1
          ++ [((specConns src (m.state.stages.filter fun s => !s.bypassed)).2, .master),
              ((specConns src (m.state.stages.filter fun s => !s.bypassed)).2, .analyser)] := by
      unfold expectedChainConns
      rw [hsn]
    rw [hexp2]
    show (gcPass (chainWalk m.instances src m.state.stages).active
        (chainWalk m.instances src m.state.stages).tbl
        (m.connections ++ (chainWalk m.instances src m.state.stages).conns)
        m.disposeLog).2.1
        ++ [((chainWalk m.instances src m.state.stages).tail, .master),
            ((chainWalk m.instances src m.state.stages).tail, .analyser)] = _
    rw [hgceq]
    simp only [hconn, hwc, hwt]
    rfl

theorem rebuildResolved_inv {m1 : EngineModel}
    (hctx : m1.ctx = true)
    (hosc : m1.oscNode =
      if m1.state.oscillator.running then
        some ⟨m1.state.oscillator.type, m1.state.oscillator.frequency⟩
      else none)
    (hms : m1.micSource = m1.state.mic) (hmst : m1.micStream = m1.state.mic)
    (hsrcMic : m1.state.source = .microphone → m1.state.mic = true)
    (hreg : ∀ s ∈ m1.state.stages, (STAGE_REGISTRY s.kind).isSome = true)
    (hik : KindsOk m1.instances m1.state.stages)
    (hknd : (m1.instances.map Prod.fst).Nodup)
    (hsnd : (m1.state.stages.map StageState.id).Nodup)
    (hconn : m1.connections = [(.master, .destination)]) :
    Inv (rebuildResolved m1) := by
  rcases hsrc : m1.state.source with _ | _
  · -- declared source: oscillator
    by_cases hr : m1.state.oscillator.running = true
    · -- oscillator node exists: chain from it, no correction
      have ho : m1.oscNode =
          some ⟨m1.state.oscillator.type, m1.state.oscillator.frequency⟩ := by
        rw [hosc, if_pos hr]
      have hcs : chooseSource m1 = (some .osc, .oscillator) :=
        chooseSource_osc hsrc (by rw [ho]; rfl)
      have hre : rebuildResolved m1
          = rebuildChainPhase .osc (applyCorrection .oscillator m1) := by
        simp only [rebuildResolved]
        rw [hcs]
      rw [hre, applyCorrection_eq hsrc.symm]
      exact rebuildChainPhase_inv hctx hosc hms hmst hsrcMic
        (fun _ h2 => absurd hr (by simp [h2])) hreg hik hknd hsnd
        (by simp [sourceNodeOf, hsrc, ho]) hconn
    · have ho : m1.oscNode = none := by rw [hosc, if_neg hr]
      by_cases hm : m1.state.mic = true
      · -- fallback to the microphone source, with correction
        have hmsrc : m1.micSource = true := by rw [hms, hm]
        have hcs : chooseSource m1 = (some .mic, .microphone) :=
          chooseSource_osc_fallback hsrc ho hmsrc
        have hre : rebuildResolved m1
            = rebuildChainPhase .mic (applyCorrection .microphone m1) := by
          simp only [rebuildResolved]
          rw [hcs]
        rw [hre, applyCorrection_ne (by rw [hsrc]; exact fun h => by cases h)]
        exact rebuildChainPhase_inv hctx hosc hms hmst (fun _ => hm)
          (fun h _ => by cases h) hreg hik hknd hsnd
          (by simp [sourceNodeOf, hmsrc]) hconn
      · -- no source node at all: the rebuild aborts
        have hmsrc : m1.micSource = false := by
          rw [hms]
          exact Bool.not_eq_true _ ▸ hm
        have hcs : chooseSource m1 = (none, .oscillator) :=
          chooseSource_none_osc hsrc ho hmsrc
        have hre : rebuildResolved m1 = applyCorrection .oscillator m1 := by
          simp only [rebuildResolved]
          rw [hcs]
        rw [hre, applyCorrection_eq hsrc.symm]
        have hsnone : sourceNodeOf m1 = none := by
          simp [sourceNodeOf, hsrc, ho]
        have hmf : m1.state.mic = false := Bool.not_eq_true _ ▸ hm
        refine
          { ctx := hctx
            oscMirror := hosc
            micSourceEq := hms
            micStreamEq := hmst
            srcMic := hsrcMic
            srcOsc := fun _ _ => hmf
            kindsReg := hreg
            instKind := hik
            instKeysNodup := hknd
            stageIdsNodup := hsnd
            instCover := ?_
            connsExact := ?_ }
        · intro h
          rw [hsnone] at h
          cases h
        · rw [hconn]
          unfold expectedChainConns
          rw [hsnone]
  · -- declared source: microphone (always available here, by the invariant)
    have hmic : m1.state.mic = true := hsrcMic hsrc
    have hmsrc : m1.micSource = true := by rw [hms, hmic]
    have hcs : chooseSource m1 = (some .mic, .microphone) :=
      chooseSource_mic hsrc hmsrc
    have hre : rebuildResolved m1
        = rebuildChainPhase .mic (applyCorrection .microphone m1) := by
      simp only [rebuildResolved]
      rw [hcs]
    rw [hre, applyCorrection_eq hsrc.symm]
    exact rebuildChainPhase_inv hctx hosc hms hmst hsrcMic
      (fun h _ => by rw [hsrc] at h; cases h) hreg hik hknd hsnd
      (by simp [sourceNodeOf, hsrc, hmsrc]) hconn

/-- After any command mutation satisfying the entry conditions, the rebuild
re-establishes the full invariant. -/
theorem rebuild_inv {m : EngineModel} (hmv : MidInv m) : Inv (rebuildSignalChain m) := by
  unfold rebuildSignalChain
  rw [hmv.ctx]
  simp only [Bool.not_true, Bool.false_eq_true, if_false]
  rw [syncPhase_eq m hmv]
  exact rebuildResolved_inv hmv.ctx rfl hmv.micSourceEq hmv.micStreamEq hmv.srcMic
    hmv.kindsReg hmv.instKind hmv.instKeysNodup hmv.stageIdsNodup rfl

/-! ## Commands preserve the invariant -/

theorem sourceNodeOf_osc_isSome {m : EngineModel}
    (h : sourceNodeOf m = some NodeRef.osc) : m.oscNode.isSome = true := by
  unfold sourceNodeOf at h
  rcases hs : m.state.source with _ | _ <;> rw [hs] at h
  · by_cases ho : m.oscNode.isSome
    · exact ho
    · rw [if_neg ho] at h
      cases h
  · by_cases ho : m.micSource = true
    · rw [if_pos ho] at h
      injection h with h2
      cases h2
    · rw [if_neg ho] at h
      cases h

theorem sourceNodeOf_mic_isSome {m : EngineModel}
    (h : sourceNodeOf m = some NodeRef.mic) : m.micSource = true := by
  unfold sourceNodeOf at h
  rcases hs : m.state.source with _ | _ <;> rw [hs] at h
  · by_cases ho : m.oscNode.isSome
    · rw [if_pos ho] at h
      injection h with h2
      cases h2
    · rw [if_neg ho] at h
      cases h
  · by_cases ho : m.micSource = true
    · exact ho
    · rw [if_neg ho] at h
      cases h

/-- Every source of the expected chain is a live output: the chosen source
node or the exit node of a live instance. -/
theorem expected_sources_live {m : EngineModel} (hv : Inv m) :
    ∀ c ∈ expectedChainConns m, c.1 ∈ liveOutputRefs m := by
  intro c hc
  unfold expectedChainConns at hc
  cases hsn : sourceNodeOf m with
  | none =>
    rw [hsn] at hc
    cases hc
  | some src =>
    rw [hsn] at hc
    have hmem : c.1 = src ∨
        ∃ s ∈ m.state.stages.filter (fun s => !s.bypassed), c.1 = exitRef s.kind s.id := by
      rcases List.mem_append.mp hc with h1 | h2
      · exact (specConns_src _ src).1 c h1
      · have ht := (specConns_src (m.state.stages.filter fun s => !s.bypassed) src).2
        have hc1 : c.1 = (specConns src (m.state.stages.filter fun s => !s.bypassed)).2 := by
          rcases List.mem_cons.mp h2 with h3 | h3
          · rw [h3]
          · rw [List.mem_singleton.mp h3]
        rcases ht with h4 | ⟨s, hs, h4⟩
        · exact Or.inl (hc1.trans h4)
        · exact Or.inr ⟨s, hs, hc1.trans h4⟩
    have hinst : ∀ s ∈ m.state.stages, exitRef s.kind s.id ∈ liveOutputRefs m := by
      intro s hs
      have hcov := hv.instCover (by rw [hsn]; rfl) s hs
      cases hf : tblFind m.instances s.id with
      | none => rw [hf] at hcov; cases hcov
      | some inst =>
        have hmem2 : (s.id, inst) ∈ m.instances := lookup_mem hf
        have hkind : s.kind = inst.kind := hv.instKind (s.id, inst) hmem2 s hs rfl
        unfold liveOutputRefs
        refine List.mem_append.mpr (Or.inr (List.mem_map.mpr ⟨(s.id, inst), hmem2, ?_⟩))
        rw [hkind]
    rcases hmem with h1 | ⟨s, hs, h1⟩
    · rcases sourceNodeOf_shape hsn with h2 | h2 <;> rw [h1, h2]
      · unfold liveOutputRefs
        refine List.mem_append.mpr (Or.inl (List.mem_append.mpr (Or.inl ?_)))
        rw [h2] at hsn
        rw [if_pos (sourceNodeOf_osc_isSome hsn)]
        exact List.mem_singleton.mpr rfl
      · unfold liveOutputRefs
        refine List.mem_append.mpr (Or.inl (List.mem_append.mpr (Or.inr ?_)))
        rw [h2] at hsn
        rw [if_pos (sourceNodeOf_mic_isSome hsn)]
        exact List.mem_singleton.mpr rfl
    · rw [h1]
      exact hinst s (List.mem_of_mem_filter hs)

/-- Generic preservation for commands that mutate only the canonical state
and leave `mic`, the source nodes, the instance table and the connections
untouched. -/
theorem updateState_inv_of {m : EngineModel} (hv : Inv m) (f : EngineState → EngineState)
    (hmic : (f m.state).mic = m.state.mic)
    (hsm : (f m.state).source = .microphone → (f m.state).mic = true)
    (hreg : ∀ s ∈ (f m.state).stages, (STAGE_REGISTRY s.kind).isSome = true)
    (hik : KindsOk m.instances (f m.state).stages)
    (hsnd : ((f m.state).stages.map StageState.id).Nodup) :
    Inv (updateState f m) := by
  show Inv (rebuildSignalChain
    { m with state := f m.state, emitted := f m.state :: m.emitted })
  apply rebuild_inv
  refine
    { ctx := hv.ctx
      micSourceEq := ?_
      micStreamEq := ?_
      srcMic := hsm
      kindsReg := hreg
      instKind := hik
      instKeysNodup := hv.instKeysNodup
      stageIdsNodup := hsnd
      connsForm := ?_ }
  · show m.micSource = (f m.state).mic
    rw [hmic]
    exact hv.micSourceEq
  · show m.micStream = (f m.state).mic
    rw [hmic]
    exact hv.micStreamEq
  · exact ⟨expectedChainConns m, hv.connsExact, fun c hc => expected_sources_live hv c hc⟩

theorem setFirstStage_shape {id : String} {f : StageState → StageState}
    (hid : ∀ s, (f s).id = s.id) (hkind : ∀ s, (f s).kind = s.kind) :
    ∀ l : List StageState,
    ((setFirstStage id f l).map StageState.id = l.map StageState.id)
      ∧ ∀ s' ∈ setFirstStage id f l, ∃ s ∈ l, s'.id = s.id ∧ s'.kind = s.kind := by
  intro l
  induction l with
  | nil => exact ⟨rfl, fun s' hs' => absurd hs' (List.not_mem_nil s')⟩
  | cons a rest ih =>
    by_cases ha : a.id = id
    · refine ⟨?_, ?_⟩
      · simp [setFirstStage, ha, hid a]
      · intro s' hs'
        simp only [setFirstStage, if_pos ha] at hs'
        rcases List.mem_cons.mp hs' with h1 | h1
        · exact ⟨a, List.mem_cons_self _ _, by rw [h1, hid a], by rw [h1, hkind a]⟩
        · exact ⟨s', List.mem_cons_of_mem _ h1, rfl, rfl⟩
    · refine ⟨?_, ?_⟩
      · simp [setFirstStage, ha, ih.1]
      · intro s' hs'
        simp only [setFirstStage, if_neg ha] at hs'
        rcases List.mem_cons.mp hs' with h1 | h1
        · exact ⟨a, List.mem_cons_self _ _, by rw [h1], by rw [h1]⟩
        · obtain ⟨s, hs, h2, h3⟩ := ih.2 s' h1
          exact ⟨s, List.mem_cons_of_mem _ hs, h2, h3⟩

theorem removeFirstStage_sublist (id : String) :
    ∀ l : List StageState, List.Sublist (removeFirstStage id l) l := by
  intro l
  induction l with
  | nil => exact List.Sublist.refl _
  | cons a rest ih =>
    by_cases ha : a.id = id
    · simp only [removeFirstStage, if_pos ha]
      exact List.sublist_cons_self a rest
    · simp only [removeFirstStage, if_neg ha]
      exact List.Sublist.cons₂ a ih

theorem insertStage_perm (afterId : Option String) (ns : StageState) :
    ∀ l : List StageState, (insertStage afterId ns l).Perm (ns :: l) := by
  intro l
  induction l with
  | nil =>
    cases afterId <;> exact List.Perm.refl _
  | cons a rest ih =>
    cases afterId with
    | none =>
      simp only [insertStage]
      exact (List.Perm.cons a ih).trans (List.Perm.swap ns a rest)
    | some x =>
      by_cases ha : a.id = x
      · simp only [insertStage, if_pos ha]
        exact List.Perm.swap ns a rest
      · simp only [insertStage, if_neg ha]
        exact (List.Perm.cons a ih).trans (List.Perm.swap ns a rest)

theorem insertIdx_perm_cons {α : Type} (a : α) :
    ∀ (j : Nat) (l : List α), j ≤ l.length → (l.insertIdx j a).Perm (a :: l) := by
  intro j
  induction j with
  | zero => intro l _; rw [List.insertIdx_zero]
  | succ j ih =>
    intro l hj
    cases l with
    | nil => cases hj
    | cons b rest =>
      rw [List.insertIdx_succ_cons]
      exact (List.Perm.cons b (ih rest (Nat.le_of_succ_le_succ hj))).trans
        (List.Perm.swap a b rest)

theorem eraseIdx_perm_cons {α : Type} :
    ∀ (l : List α) (i : Nat) (a : α), l[i]? = some a → l.Perm (a :: l.eraseIdx i) := by
  intro l
  induction l with
  | nil => intro i a h; cases h
  | cons b rest ih =>
    intro i a h
    cases i with
    | zero =>
      simp only [List.getElem?_cons_zero, Option.some.injEq] at h
      rw [h, List.eraseIdx_cons_zero]
    | succ i =>
      rw [List.getElem?_cons_succ] at h
      rw [List.eraseIdx_cons_succ]
      exact (List.Perm.cons b (ih i a h)).trans (List.Perm.swap a b _)

theorem moveStageList_perm (id : String) (dir : MoveDirection) (l : List StageState) :
    (moveStageList id dir l).Perm l := by
  have step : ∀ (i j : Nat),
      (if j ≥ l.length then l
        else match l[i]? with
          | none => l
          | some s => (l.eraseIdx i).insertIdx j s).Perm l := by
    intro i j
    by_cases hg2 : j ≥ l.length
    · rw [if_pos hg2]
    · rw [if_neg hg2]
      cases hget : l[i]? with
      | none => exact List.Perm.refl _
      | some s =>
        have hlen : i < l.length := by
          by_contra hc
          rw [List.getElem?_eq_none (Nat.le_of_not_lt hc)] at hget
          cases hget
        have hj : j ≤ (l.eraseIdx i).length := by
          rw [List.length_eraseIdx_of_lt hlen]
          omega
        exact (insertIdx_perm_cons s _ _ hj).trans (eraseIdx_perm_cons l i s hget).symm
  unfold moveStageList
  cases hf : l.findIdx? (fun s => s.id = id) with
  | none => exact List.Perm.refl _
  | some i =>
    show (if dir = .up ∧ i = 0 then l
      else if (match dir with | .up => i - 1 | .down => i + 1) ≥ l.length then l
      else
        match l[i]? with
        | none => l
        | some s =>
          (l.eraseIdx i).insertIdx (match dir with | .up => i - 1 | .down => i + 1) s).Perm l
    by_cases hg1 : dir = .up ∧ i = 0
    · rw [if_pos hg1]
    · rw [if_neg hg1]
      rcases dir with _ | _
      · exact step i (i - 1)
      · exact step i (i + 1)

theorem mem_liveOutputRefs_iff {m : EngineModel} {r : NodeRef} :
    r ∈ liveOutputRefs m ↔
      (m.oscNode.isSome = true ∧ r = .osc) ∨ (m.micSource = true ∧ r = .mic)
        ∨ ∃ p ∈ m.instances, exitRef p.2.kind p.1 = r := by
  by_cases ho : m.oscNode.isSome = true <;> by_cases hm : m.micSource = true <;>
    simp [liveOutputRefs, ho, hm, List.mem_append, List.mem_map]

theorem startOscillator_inv {m : EngineModel} (hv : Inv m) :
    Inv (startOscillator m) :=
  updateState_inv_of hv _ rfl (fun h => nomatch h) hv.kindsReg hv.instKind
    hv.stageIdsNodup

theorem stopOscillator_inv {m : EngineModel} (hv : Inv m) :
    Inv (stopOscillator m) :=
  updateState_inv_of hv _ rfl hv.srcMic hv.kindsReg hv.instKind hv.stageIdsNodup

theorem setFrequency_inv {m : EngineModel} (hz : JSNum) (hv : Inv m) :
    Inv (setFrequency hz m) :=
  updateState_inv_of hv _ rfl hv.srcMic hv.kindsReg hv.instKind hv.stageIdsNodup

theorem setType_inv {m : EngineModel} (t : WaveformType) (hv : Inv m) :
    Inv (setType t m) :=
  updateState_inv_of hv _ rfl hv.srcMic hv.kindsReg hv.instKind hv.stageIdsNodup

theorem setSource_inv {m : EngineModel} (src : SourceType) (hv : Inv m) :
    Inv (setSource src m).1 := by
  unfold setSource
  by_cases hg : src = .microphone ∧ !m.state.mic
  · rw [if_pos hg]
    exact hv
  · rw [if_neg hg]
    refine updateState_inv_of hv (fun s => { s with source := src }) rfl ?_
      hv.kindsReg hv.instKind hv.stageIdsNodup
    intro h
    show m.state.mic = true
    by_cases hm : m.state.mic = true
    · exact hm
    · exact absurd ⟨h, by simp [hm]⟩ hg

theorem setFirst_cmd_inv {m : EngineModel} (hv : Inv m) (id : String)
    (g : StageState → StageState)
    (hid : ∀ s, (g s).id = s.id) (hkind : ∀ s, (g s).kind = s.kind) :
    Inv (updateState
      (fun st => { st with stages := setFirstStage id g st.stages }) m) := by
  obtain ⟨hids, hmem⟩ := setFirstStage_shape hid hkind m.state.stages
  refine updateState_inv_of hv _ rfl hv.srcMic ?_ ?_ ?_
  · intro s' hs'
    obtain ⟨s, hs, _, hk⟩ := hmem s' hs'
    rw [hk]
    exact hv.kindsReg s hs
  · intro p hp s' hs' hid'
    obtain ⟨s, hs, hq, hk⟩ := hmem s' hs'
    rw [hk]
    exact hv.instKind p hp s hs (by rw [← hq, hid'])
  · show ((setFirstStage id g m.state.stages).map StageState.id).Nodup
    rw [hids]
    exact hv.stageIdsNodup

theorem setStageBypass_inv {m : EngineModel} (id : String) (b : Bool) (hv : Inv m) :
    Inv (setStageBypass id b m) :=
  setFirst_cmd_inv hv id _ (fun _ => rfl) (fun _ => rfl)

theorem setStageParams_inv {m : EngineModel} (id : String) (p : Params) (hv : Inv m) :
    Inv (setStageParams id p m) :=
  setFirst_cmd_inv hv id _ (fun _ => rfl) (fun _ => rfl)

theorem removeStage_inv {m : EngineModel} (id : String) (hv : Inv m) :
    Inv (removeStage id m) := by
  have hsub := removeFirstStage_sublist id m.state.stages
  refine updateState_inv_of hv _ rfl hv.srcMic ?_ ?_ ?_
  · intro s' hs'
    exact hv.kindsReg s' (hsub.subset hs')
  · intro p hp s' hs' hid'
    exact hv.instKind p hp s' (hsub.subset hs') hid'
  · exact hv.stageIdsNodup.sublist (hsub.map StageState.id)

theorem moveStage_inv {m : EngineModel} (id : String) (dir : MoveDirection) (hv : Inv m) :
    Inv (moveStage id dir m) := by
  have hperm := moveStageList_perm id dir m.state.stages
  refine updateState_inv_of hv _ rfl hv.srcMic ?_ ?_ ?_
  · intro s' hs'
    exact hv.kindsReg s' (hperm.subset hs')
  · intro p hp s' hs' hid'
    exact hv.instKind p hp s' (hperm.subset hs') hid'
  · exact ((hperm.map StageState.id).nodup_iff).mpr hv.stageIdsNodup

theorem addStage_inv {m : EngineModel} {kind newId : String} {afterId : Option String}
    (hfresh : FreshId newId m) (hv : Inv m) :
    Inv (addStage kind newId afterId m).1 := by
  unfold addStage
  cases hd : getDefaultParams kind with
  | none => exact hv
  | some defaults =>
    have hreg0 : (STAGE_REGISTRY kind).isSome = true := by
      unfold getDefaultParams at hd
      cases hr : STAGE_REGISTRY kind with
      | none => rw [hr] at hd; cases hd
      | some d => rfl
    have hperm := insertStage_perm afterId ⟨newId, kind, false, defaults⟩ m.state.stages
    refine updateState_inv_of hv
      (fun st => { st with
        stages := insertStage afterId ⟨newId, kind, false, defaults⟩ st.stages })
      rfl hv.srcMic ?_ ?_ ?_
    · intro s' hs'
      rcases List.mem_cons.mp (hperm.subset hs') with h1 | h1
      · rw [h1]
        exact hreg0
      · exact hv.kindsReg s' h1
    · intro p hp s' hs' hid'
      rcases List.mem_cons.mp (hperm.subset hs') with h1 | h1
      · exfalso
        apply hfresh.2 p hp
        rw [← hid', h1]
      · exact hv.instKind p hp s' h1 hid'
    · show ((insertStage afterId ⟨newId, kind, false, defaults⟩ m.state.stages).map
          StageState.id).Nodup
      rw [(hperm.map StageState.id).nodup_iff]
      rw [List.map_cons, List.nodup_cons]
      refine ⟨?_, hv.stageIdsNodup⟩
      intro hmem
      obtain ⟨s, hs, he⟩ := List.mem_map.mp hmem
      exact hfresh.1 s hs he

theorem enableMicrophone_inv {m : EngineModel} (ok : Bool) (hv : Inv m) :
    Inv (enableMicrophone ok m) := by
  unfold enableMicrophone
  rw [hv.ctx]
  simp only [Bool.not_true, Bool.false_eq_true, if_false]
  by_cases hms : m.micSource = true
  · rw [if_pos hms]
    have hmt : m.state.mic = true := by rw [← hv.micSourceEq, hms]
    exact updateState_inv_of hv _ (by rw [hmt]) (fun _ => rfl) hv.kindsReg
      hv.instKind hv.stageIdsNodup
  · rw [if_neg hms]
    by_cases hok : ok = true
    · rw [if_pos hok]
      show Inv (rebuildSignalChain _)
      apply rebuild_inv
      refine
        { ctx := rfl
          micSourceEq := rfl
          micStreamEq := rfl
          srcMic := fun _ => rfl
          kindsReg := hv.kindsReg
          instKind := hv.instKind
          instKeysNodup := hv.instKeysNodup
          stageIdsNodup := hv.stageIdsNodup
          connsForm := ?_ }
      refine ⟨expectedChainConns m, hv.connsExact, ?_⟩
      intro c hc
      have hc2 := expected_sources_live hv c hc
      rw [mem_liveOutputRefs_iff] at hc2 ⊢
      rcases hc2 with h1 | h1 | h1
      · exact Or.inl h1
      · exact Or.inr (Or.inl ⟨rfl, h1.2⟩)
      · exact Or.inr (Or.inr h1)
    · rw [if_neg hok]
      exact hv

theorem disableMicrophone_inv {m : EngineModel} (hv : Inv m) :
    Inv (disableMicrophone m) := by
  unfold disableMicrophone
  have hsm : ∀ st : EngineState,
      (if st.source = SourceType.microphone then SourceType.oscillator else st.source)
        = .microphone → False := by
    intro st h
    by_cases hs : st.source = .microphone
    · rw [if_pos hs] at h
      cases h
    · rw [if_neg hs] at h
      exact hs h
  by_cases hms : m.micSource = true
  · rw [if_pos hms]
    show Inv (rebuildSignalChain _)
    apply rebuild_inv
    have hfc : (m.connections.filter fun c => decide (c.1 ≠ NodeRef.mic))
        = (.master, .destination)
          :: (expectedChainConns m).filter (fun c => decide (c.1 ≠ NodeRef.mic)) := by
      rw [hv.connsExact, List.filter_cons]
      rfl
    refine
      { ctx := hv.ctx
        micSourceEq := rfl
        micStreamEq := rfl
        srcMic := fun h => absurd h (fun h2 => hsm m.state h2)
        kindsReg := hv.kindsReg
        instKind := hv.instKind
        instKeysNodup := hv.instKeysNodup
        stageIdsNodup := hv.stageIdsNodup
        connsForm := ?_ }
    refine ⟨(expectedChainConns m).filter (fun c => decide (c.1 ≠ NodeRef.mic)), hfc, ?_⟩
    intro c hc
    have hmem := List.mem_of_mem_filter hc
    have hne : c.1 ≠ NodeRef.mic := by
      have := List.of_mem_filter hc
      simpa using this
    have hc2 := expected_sources_live hv c hmem
    rw [mem_liveOutputRefs_iff] at hc2 ⊢
    rcases hc2 with h1 | h1 | h1
    · exact Or.inl h1
    · exact absurd h1.2 hne
    · exact Or.inr (Or.inr h1)
  · rw [if_neg hms]
    show Inv (rebuildSignalChain _)
    apply rebuild_inv
    refine
      { ctx := hv.ctx
        micSourceEq := rfl
        micStreamEq := rfl
        srcMic := fun h => absurd h (fun h2 => hsm m.state h2)
        kindsReg := hv.kindsReg
        instKind := hv.instKind
        instKeysNodup := hv.instKeysNodup
        stageIdsNodup := hv.stageIdsNodup
        connsForm := ?_ }
    refine ⟨expectedChainConns m, hv.connsExact, ?_⟩
    intro c hc
    have hc2 := expected_sources_live hv c hc
    rw [mem_liveOutputRefs_iff] at hc2 ⊢
    rcases hc2 with h1 | h1 | h1
    · exact Or.inl h1
    · exact absurd h1.1 hms
    · exact Or.inr (Or.inr h1)

/-- The freshly initialised engine satisfies the invariant. -/
theorem initModel_inv : Inv initModel := by
  apply rebuild_inv
  exact
    { ctx := rfl
      micSourceEq := rfl
      micStreamEq := rfl
      srcMic := fun h => nomatch h
      kindsReg := by decide
      instKind := fun p hp => absurd hp (List.not_mem_nil p)
      instKeysNodup := List.nodup_nil
      stageIdsNodup := by decide
      connsForm := ⟨[], rfl, fun c hc => absurd hc (List.not_mem_nil c)⟩ }

/-- Every reachable engine state satisfies the invariant. -/
theorem reachable_inv : ∀ {m : EngineModel}, Reachable m → Inv m := by
  intro m h
  induction h with
  | init => exact initModel_inv
  | startOscillator _ ih => exact startOscillator_inv ih
  | stopOscillator _ ih => exact stopOscillator_inv ih
  | setFrequency hz _ ih => exact setFrequency_inv hz ih
  | setType t _ ih => exact setType_inv t ih
  | enableMicrophone ok _ ih => exact enableMicrophone_inv ok ih
  | disableMicrophone _ ih => exact disableMicrophone_inv ih
  | setSource src _ ih => exact setSource_inv src ih
  | setStageBypass id b _ ih => exact setStageBypass_inv id b ih
  | setStageParams id p _ ih => exact setStageParams_inv id p ih
  | addStage kind newId afterId hfresh _ ih => exact addStage_inv hfresh ih
  | removeStage id _ ih => exact removeStage_inv id ih
  | moveStage id dir _ ih => exact moveStage_inv id dir ih

/-! ## Stability lemmas for the rebuild (no invariant needed) -/

theorem syncPhase_state (m : EngineModel) : (syncPhase m).state = m.state := by
  unfold syncPhase syncMicSource syncOscillatorNode disconnectOutputs
  (repeat' split) <;> rfl

theorem syncPhase_oscNode (m : EngineModel) :
    (syncPhase m).oscNode =
      if m.state.oscillator.running then
        some ⟨m.state.oscillator.type, m.state.oscillator.frequency⟩
      else none := by
  unfold syncPhase syncMicSource syncOscillatorNode disconnectOutputs
  (repeat' split) <;> simp_all

theorem syncPhase_disposeLog (m : EngineModel) :
    (syncPhase m).disposeLog = m.disposeLog := by
  unfold syncPhase syncMicSource syncOscillatorNode disconnectOutputs
  (repeat' split) <;> rfl

theorem syncPhase_instances (m : EngineModel) :
    (syncPhase m).instances = m.instances := by
  unfold syncPhase syncMicSource syncOscillatorNode disconnectOutputs
  (repeat' split) <;> rfl

theorem syncPhase_emitted (m : EngineModel) :
    (syncPhase m).emitted = m.emitted := by
  unfold syncPhase syncMicSource syncOscillatorNode disconnectOutputs
  (repeat' split) <;> rfl

theorem syncPhase_micSource_of_disabled (m : EngineModel) (h : m.state.mic = false) :
    (syncPhase m).micSource = m.micSource := by
  unfold syncPhase syncMicSource syncOscillatorNode disconnectOutputs
  (repeat' split) <;> simp_all

theorem applyCorrection_stable (ct : SourceType) (m : EngineModel) :
    (applyCorrection ct m).state.oscillator = m.state.oscillator
      ∧ (applyCorrection ct m).state.mic = m.state.mic
      ∧ (applyCorrection ct m).state.stages = m.state.stages
      ∧ (applyCorrection ct m).oscNode = m.oscNode
      ∧ (applyCorrection ct m).micSource = m.micSource
      ∧ (applyCorrection ct m).disposeLog = m.disposeLog := by
  unfold applyCorrection
  split <;> exact ⟨rfl, rfl, rfl, rfl, rfl, rfl⟩

theorem rebuildResolved_source (m1 : EngineModel) :
    (rebuildResolved m1).state.source = (chooseSource m1).2 := by
  rcases hc : chooseSource m1 with ⟨co, ct⟩
  simp only [rebuildResolved, hc]
  cases co with
  | none =>
    by_cases h : ct = m1.state.source
    · rw [applyCorrection_eq h, h]
    · rw [applyCorrection_ne h]
  | some src =>
    show (rebuildChainPhase src (applyCorrection ct m1)).state.source = ct
    by_cases h : ct = m1.state.source
    · rw [applyCorrection_eq h]
      exact h.symm
    · rw [applyCorrection_ne h]
      rfl

theorem rebuildResolved_emitted_of_eq (m1 : EngineModel)
    (h : (chooseSource m1).2 = m1.state.source) :
    (rebuildResolved m1).emitted = m1.emitted := by
  rcases hc : chooseSource m1 with ⟨co, ct⟩
  rw [hc] at h
  simp only [rebuildResolved, hc]
  cases co with
  | none => rw [applyCorrection_eq h]
  | some src =>
    show (rebuildChainPhase src (applyCorrection ct m1)).emitted = m1.emitted
    rw [applyCorrection_eq h]
    rfl

theorem rebuildResolved_emitted_of_ne (m1 : EngineModel)
    (h : (chooseSource m1).2 ≠ m1.state.source) :
    (rebuildResolved m1).emitted
      = { m1.state with source := (chooseSource m1).2 } :: m1.emitted := by
  rcases hc : chooseSource m1 with ⟨co, ct⟩
  rw [hc] at h
  simp only [rebuildResolved, hc]
  cases co with
  | none => rw [applyCorrection_ne h]
  | some src =>
    show (rebuildChainPhase src (applyCorrection ct m1)).emitted = _
    rw [applyCorrection_ne h]
    rfl

theorem rebuildResolved_oscillator (m1 : EngineModel) :
    (rebuildResolved m1).state.oscillator = m1.state.oscillator := by
  rcases hc : chooseSource m1 with ⟨co, ct⟩
  simp only [rebuildResolved, hc]
  cases co with
  | none => exact (applyCorrection_stable ct m1).1
  | some src => exact (applyCorrection_stable ct m1).1

theorem rebuildResolved_oscNode (m1 : EngineModel) :
    (rebuildResolved m1).oscNode = m1.oscNode := by
  rcases hc : chooseSource m1 with ⟨co, ct⟩
  simp only [rebuildResolved, hc]
  cases co with
  | none => exact (applyCorrection_stable ct m1).2.2.2.1
  | some src => exact (applyCorrection_stable ct m1).2.2.2.1

/-- The rebuild never changes the oscillator part of the canonical state. -/
theorem rebuildSignalChain_oscillator (m : EngineModel) :
    (rebuildSignalChain m).state.oscillator = m.state.oscillator := by
  unfold rebuildSignalChain
  cases hc : m.ctx
  · rfl
  · simp only [Bool.not_true, Bool.false_eq_true, if_false]
    rw [rebuildResolved_oscillator]
    rw [syncPhase_state]

/-- After a rebuild with a live context, the oscillator node mirrors the
declared oscillator state. -/
theorem rebuildSignalChain_oscNode (m : EngineModel) (hctx : m.ctx = true) :
    (rebuildSignalChain m).oscNode =
      if m.state.oscillator.running then
        some ⟨m.state.oscillator.type, m.state.oscillator.frequency⟩
      else none := by
  unfold rebuildSignalChain
  rw [hctx]
  simp only [Bool.not_true, Bool.false_eq_true, if_false]
  rw [rebuildResolved_oscNode, syncPhase_oscNode]

theorem chainWalk_active_eq :
    ∀ (stages : List StageState) (tbl : InstTable) (tail : NodeRef),
    (chainWalk tbl tail stages).active = stages.map StageState.id := by
  intro stages
  induction stages with
  | nil => intro tbl tail; rfl
  | cons s rest ih =>
    intro tbl tail
    by_cases hb : s.bypassed
    · simp only [chainWalk, hb, if_true, List.map_cons]
      rw [ih]
    · simp only [chainWalk, hb, Bool.false_eq_true, if_false, List.map_cons]
      rw [ih]

theorem gcPass_log :
    ∀ (tbl : InstTable) (conns : List Conn) (log : List String) (active : List String),
    (gcPass active tbl conns log).2.2
      = log ++ (tbl.filter fun p => decide (p.1 ∉ active)).map Prod.fst := by
  intro tbl
  induction tbl with
  | nil => intro conns log active; simp [gcPass]
  | cons p rest ih =>
    intro conns log active
    obtain ⟨id, inst⟩ := p
    by_cases ha : id ∈ active
    · simp only [gcPass, if_pos ha, List.filter_cons]
      rw [decide_eq_false (by simpa using ha)]
      simp only [Bool.false_eq_true, if_false]
      exact ih conns log active
    · simp only [gcPass, if_neg ha, List.filter_cons]
      rw [decide_eq_true (by simpa using ha)]
      simp only [if_true]
      rw [ih _ (log ++ [id]) active]
      simp

/-- A stage id still present in the stage list is never disposed by a
rebuild: the dispose log's count for it is unchanged. -/
theorem rebuild_no_dispose_of_mem (m : EngineModel) (id : String)
    (hmem : id ∈ m.state.stages.map StageState.id) :
    (rebuildSignalChain m).disposeLog.count id = m.disposeLog.count id := by
  unfold rebuildSignalChain
  cases hc : m.ctx
  · rfl
  · simp only [Bool.not_true, Bool.false_eq_true, if_false]
    have hmem1 : id ∈ (syncPhase m).state.stages.map StageState.id := by
      rw [syncPhase_state]
      exact hmem
    have hlog1 : (syncPhase m).disposeLog = m.disposeLog := syncPhase_disposeLog m
    rcases hcs : chooseSource (syncPhase m) with ⟨co, ct⟩
    simp only [rebuildResolved, hcs]
    cases co with
    | none =>
      have := (applyCorrection_stable ct (syncPhase m)).2.2.2.2.2
      rw [this, hlog1]
    | some src =>
      show (rebuildChainPhase src (applyCorrection ct (syncPhase m))).disposeLog.count id
          = m.disposeLog.count id
      have hst := (applyCorrection_stable ct (syncPhase m)).2.2.1
      have hlg := (applyCorrection_stable ct (syncPhase m)).2.2.2.2.2
      unfold rebuildChainPhase
      simp only
      rw [gcPass_log, hlg, hlog1, List.count_append]
      have hzero : ((((chainWalk (applyCorrection ct (syncPhase m)).instances src
          (applyCorrection ct (syncPhase m)).state.stages).tbl).filter
            fun p => decide (p.1 ∉ (chainWalk (applyCorrection ct (syncPhase m)).instances src
              (applyCorrection ct (syncPhase m)).state.stages).active)).map Prod.fst).count id
          = 0 := by
        rw [List.count_eq_zero]
        intro habs
        obtain ⟨p, hp, he⟩ := List.mem_map.mp habs
        have hna := List.of_mem_filter hp
        rw [decide_eq_true_eq] at hna
        apply hna
        rw [he, chainWalk_active_eq, hst, syncPhase_state]
        exact hmem
      rw [hzero]
      omega

theorem chooseSource_mic_fallback {m : EngineModel}
    (h1 : m.state.source = .microphone) (h2 : m.micSource = false)
    (h3 : m.oscNode.isSome = true) :
    chooseSource m = (some .osc, .oscillator) := by
  unfold chooseSource
  simp [h1, h2, h3]

theorem syncPhase_micSource_mono {m : EngineModel} (h : m.micSource = true) :
    (syncPhase m).micSource = true := by
  unfold syncPhase syncMicSource syncOscillatorNode disconnectOutputs
  (repeat' split) <;> simp_all

theorem rebuildResolved_state_of_eq (m1 : EngineModel)
    (h : (chooseSource m1).2 = m1.state.source) :
    (rebuildResolved m1).state = m1.state := by
  rcases hc : chooseSource m1 with ⟨co, ct⟩
  rw [hc] at h
  simp only [rebuildResolved, hc]
  cases co with
  | none => rw [applyCorrection_eq h]
  | some src =>
    show (rebuildChainPhase src (applyCorrection ct m1)).state = m1.state
    rw [applyCorrection_eq h]
    rfl

/-- A rebuild either emits nothing or prepends exactly one corrected
snapshot. -/
theorem rebuildSignalChain_emitted_shape (m : EngineModel) :
    ∃ rest, (rebuildSignalChain m).emitted = rest ++ m.emitted := by
  unfold rebuildSignalChain
  cases hc : m.ctx
  · exact ⟨[], rfl⟩
  · simp only [Bool.not_true, Bool.false_eq_true, if_false]
    by_cases h : (chooseSource (syncPhase m)).2 = (syncPhase m).state.source
    · refine ⟨[], ?_⟩
      rw [rebuildResolved_emitted_of_eq _ h, syncPhase_emitted]
      rfl
    · refine ⟨[{ (syncPhase m).state with source := (chooseSource (syncPhase m)).2 }], ?_⟩
      rw [rebuildResolved_emitted_of_ne _ h, syncPhase_emitted]
      rfl

/-- A rebuild starting from a disabled microphone and a declared oscillator
source neither changes the canonical state nor emits a snapshot. -/
theorem rebuildSignalChain_osc_noheal (m : EngineModel)
    (hs : m.state.source = .oscillator) (hmic : m.state.mic = false)
    (hmsrc : m.micSource = false) :
    (rebuildSignalChain m).state = m.state
      ∧ (rebuildSignalChain m).emitted = m.emitted := by
  unfold rebuildSignalChain
  cases hc : m.ctx
  · exact ⟨rfl, rfl⟩
  · simp only [Bool.not_true, Bool.false_eq_true, if_false]
    have hst := syncPhase_state m
    have hs1 : (syncPhase m).state.source = .oscillator := by rw [hst, hs]
    have hms2 : (syncPhase m).micSource = false := by
      rw [syncPhase_micSource_of_disabled m hmic, hmsrc]
    have hchoose : (chooseSource (syncPhase m)).2 = (syncPhase m).state.source := by
      cases ho : (syncPhase m).oscNode with
      | some v =>
        rw [chooseSource_osc hs1 (by rw [ho]; rfl), hs1]
      | none =>
        rw [chooseSource_none_osc hs1 ho hms2, hs1]
    constructor
    · rw [rebuildResolved_state_of_eq _ hchoose, hst]
    · rw [rebuildResolved_emitted_of_eq _ hchoose, syncPhase_emitted]

/-! ## Concrete scenario states -/

/-- The engine right after `init()` and `startOscillator()`. -/
def mStart : EngineModel := startOscillator initModel

/-- The engine right after `init()` and a successful `enableMicrophone()`. -/
def mMic : EngineModel := enableMicrophone true initModel

/-! ## Claim theorems -/

/-- C1: for every reachable `EngineState`, after a rebuild the set of chain
connections the engine made is exactly effective source → entry of the
first non-bypassed stage → … → exit of the last non-bypassed stage, with
the final tail connected in parallel to the master output and the analysis
tap; bypassed stages receive no connection and do not advance the tail, for
any permutation of bypass flags.  (`expectedChainConns` walks exactly the
non-bypassed stages and fans the final tail out to master and analyser;
besides the chain, only the permanent `masterGain → destination` edge made
in `init()` exists.) -/
theorem chain_topology_fidelity {m : EngineModel} (h : Reachable m) :
    m.connections = (.master, .destination) :: expectedChainConns m :=
  (reachable_inv h).connsExact

theorem chain_topology_fidelity_witness :
    Reachable (setStageBypass "gain-stage" false mStart)
      ∧ (setStageBypass "gain-stage" false mStart).connections
        = (.master, .destination)
            :: expectedChainConns (setStageBypass "gain-stage" false mStart)
      ∧ (setStageBypass "gain-stage" false mStart).connections
        = [(.master, .destination), (.osc, .stageNode "gain-stage"),
           (.stageNode "gain-stage", .master), (.stageNode "gain-stage", .analyser)] :=
  ⟨Reachable.setStageBypass _ _ (Reachable.startOscillator Reachable.init),
   chain_topology_fidelity
     (Reachable.setStageBypass _ _ (Reachable.startOscillator Reachable.init)),
   by decide⟩

/-- C6: `addStage` with an unregistered kind fails (the thrown lookup error
surfaces to the caller as the `UnknownStageKind` failure) and leaves the
canonical state — indeed the whole engine, snapshots included — unchanged:
the failure happens while building the new stage's default parameters,
before any mutation or emission. -/
theorem addStage_unknown_kind (m : EngineModel) (kind newId : String)
    (afterId : Option String) (h : STAGE_REGISTRY kind = none) :
    addStage kind newId afterId m = (m, .error .unknownStageKind) := by
  unfold addStage
  have hd : getDefaultParams kind = none := by
    unfold getDefaultParams
    rw [h]
    rfl
  rw [hd]

theorem addStage_unknown_kind_witness :
    STAGE_REGISTRY "reverb" = none
      ∧ addStage "reverb" "reverb-00000000" none initModel
        = (initModel, .error .unknownStageKind) :=
  ⟨by decide, addStage_unknown_kind initModel "reverb" "reverb-00000000" none (by decide)⟩

/-- C7: a failed `enableMicrophone()` (capture acquisition rejected) leaves
the engine exactly as before the call: no field of the canonical state is
mutated, nothing is emitted, no partial mutation occurs.  (The hypothesis
`micSource = false` states that no capture node already exists; with one,
the code short-circuits to success without consulting the acquisition.) -/
theorem enableMicrophone_failure_atomic (m : EngineModel) (h : m.micSource = false) :
    enableMicrophone false m = m := by
  unfold enableMicrophone
  cases hctx : m.ctx <;> simp [hctx, h]

theorem enableMicrophone_failure_atomic_witness :
    initModel.micSource = false ∧ enableMicrophone false initModel = initModel :=
  ⟨rfl, enableMicrophone_failure_atomic initModel rfl⟩

/-- C9 counterexample: the initial `EngineState` is not the claimed empty
configuration — its `stages` list is not empty (it holds three bypassed
default stages). -/
theorem initial_state_cex :
    ¬(initEngineState.source = .oscillator
      ∧ initEngineState.oscillator.running = false
      ∧ initEngineState.mic = false
      ∧ initEngineState.stages = []) := by
  decide

/-- C9 (amended): at initialization the `EngineState` has source Oscillator,
the oscillator not running, the microphone disabled, and a stages sequence
of exactly three bypassed default stages — gain, pan, delay — each carrying
its registry default parameters. -/
theorem initial_state_default :
    initEngineState.source = .oscillator
      ∧ initEngineState.oscillator.running = false
      ∧ initEngineState.mic = false
      ∧ initEngineState.stages.map (fun s => (s.id, s.kind, s.bypassed))
        = [("gain-stage", "gain", true), ("pan-stage", "pan", true),
           ("delay-stage", "delay", true)]
      ∧ ∀ s ∈ initEngineState.stages, getDefaultParams s.kind = some s.params := by
  refine ⟨rfl, rfl, rfl, by decide, by decide⟩

/-- C2 counterexample: starting from the freshly initialised engine, no
source node exists, so every rebuild aborts before garbage collection;
`addStage` followed by `removeStage` on the same id then issues zero
`dispose()` calls — not exactly one as claimed (no instance was ever
created, and had one lingered it would not be disposed by the next
rebuild). -/
theorem stage_instance_lifecycle_cex :
    (removeStage "gain-c0ffee00"
        (addStage "gain" "gain-c0ffee00" none initModel).1).disposeLog.count
      "gain-c0ffee00" = 0
    ∧ ¬((removeStage "gain-c0ffee00"
        (addStage "gain" "gain-c0ffee00" none initModel).1).disposeLog.count
      "gain-c0ffee00" = 1) :=
  ⟨by decide, by decide⟩

/-- C2 (amended): every stage id has at most one live instance (the
instance-table keys stay distinct in every reachable state); instances are
created lazily on first need (none exist after `init()`, whose rebuild
aborts with no source); a rebuild never disposes an id still present in
`stages` (in particular bypassed stages that remain listed are never
disposed); and — while a source node exists so rebuilds reach garbage
collection — `addStage` followed by `removeStage` on the same id leaves
zero live instances for that id with exactly one `dispose()` call. -/
theorem stage_instance_lifecycle :
    (∀ m : EngineModel, Reachable m → (m.instances.map Prod.fst).Nodup)
      ∧ (∀ (m : EngineModel) (id : String), id ∈ m.state.stages.map StageState.id →
          (rebuildSignalChain m).disposeLog.count id = m.disposeLog.count id)
      ∧ initModel.instances = []
      ∧ (tblFind (addStage "gain" "gain-f00dbeef" none mStart).1.instances
          "gain-f00dbeef").isSome = true
      ∧ tblFind (removeStage "gain-f00dbeef"
          (addStage "gain" "gain-f00dbeef" none mStart).1).instances
          "gain-f00dbeef" = none
      ∧ (removeStage "gain-f00dbeef"
          (addStage "gain" "gain-f00dbeef" none mStart).1).disposeLog.count
          "gain-f00dbeef" = 1 :=
  ⟨fun _ h => (reachable_inv h).instKeysNodup,
   fun m id hmem => rebuild_no_dispose_of_mem m id hmem,
   by decide, by decide, by decide, by decide⟩

theorem stage_instance_lifecycle_witness :
    (mStart.instances.map Prod.fst).Nodup
      ∧ (rebuildSignalChain mStart).disposeLog.count "gain-stage"
        = mStart.disposeLog.count "gain-stage" :=
  ⟨stage_instance_lifecycle.1 mStart (Reachable.startOscillator Reachable.init),
   stage_instance_lifecycle.2.1 mStart "gain-stage" (by decide)⟩

/-- Core of the `disableMicrophone` scenario: from any engine whose
declared source is the microphone, the state mutation flips the source to
the oscillator, and the subsequent rebuild (with the capture node gone)
neither heals it back nor emits a further snapshot, so the newest snapshot
is exactly the new state. -/
theorem disable_core (m0 : EngineModel) (h : m0.state.source = .microphone) :
    (updateState
        (fun s => { s with mic := false
                           source := (if s.source = .microphone then .oscillator
                             else s.source) })
        { m0 with micStream := false, micSource := false }).state.source
      = .oscillator
    ∧ (updateState
        (fun s => { s with mic := false
                           source := (if s.source = .microphone then .oscillator
                             else s.source) })
        { m0 with micStream := false, micSource := false }).emitted.head?
      = some (updateState
          (fun s => { s with mic := false
                             source := (if s.source = .microphone then .oscillator
                               else s.source) })
          { m0 with micStream := false, micSource := false }).state := by
  have hs : (if m0.state.source = .microphone then SourceType.oscillator
      else m0.state.source) = .oscillator := by rw [if_pos h]
  obtain ⟨h1, h2⟩ := rebuildSignalChain_osc_noheal
    { m0 with micStream := false, micSource := false,
              state := { m0.state with
                           mic := false,
                           source := (if m0.state.source = .microphone
                             then .oscillator else m0.state.source) },
              emitted := { m0.state with
                             mic := false,
                             source := (if m0.state.source = .microphone
                               then .oscillator else m0.state.source) }
                :: m0.emitted }
    hs rfl rfl
  constructor
  · show (rebuildSignalChain _).state.source = .oscillator
    rw [h1]
    exact hs
  · show (rebuildSignalChain _).emitted.head? = some (rebuildSignalChain _).state
    rw [h1, h2]
    rfl

/-- C3: with the microphone as declared source, `disableMicrophone()`
flips `state.source` to Oscillator and the newest snapshot shows it,
without any `setSource` call; in general the rebuild prefers the declared
source when its node exists, falls back to the node that does exist
otherwise, and when the fallback differs from the declared source it
corrects `state.source` and emits one corrected snapshot. -/
theorem self_healing_source :
    (∀ m : EngineModel, m.state.source = .microphone →
      (disableMicrophone m).state.source = .oscillator
        ∧ (disableMicrophone m).emitted.head? = some (disableMicrophone m).state)
      ∧ (∀ m : EngineModel, m.state.source = .oscillator → m.oscNode.isSome = true →
          chooseSource m = (some .osc, .oscillator))
      ∧ (∀ m : EngineModel, m.state.source = .microphone → m.micSource = true →
          chooseSource m = (some .mic, .microphone))
      ∧ (∀ m : EngineModel, m.state.source = .microphone → m.micSource = false →
          m.oscNode.isSome = true → chooseSource m = (some .osc, .oscillator))
      ∧ (∀ m : EngineModel, m.state.source = .oscillator → m.oscNode = none →
          m.micSource = true → chooseSource m = (some .mic, .microphone))
      ∧ (∀ m1 : EngineModel, (chooseSource m1).2 ≠ m1.state.source →
          (rebuildResolved m1).state.source = (chooseSource m1).2
            ∧ (rebuildResolved m1).emitted
              = { m1.state with source := (chooseSource m1).2 } :: m1.emitted) := by
  refine ⟨?_, fun m h1 h2 => chooseSource_osc h1 h2,
    fun m h1 h2 => chooseSource_mic h1 h2,
    fun m h1 h2 h3 => chooseSource_mic_fallback h1 h2 h3,
    fun m h1 h2 h3 => chooseSource_osc_fallback h1 h2 h3,
    fun m1 h => ⟨rebuildResolved_source m1, rebuildResolved_emitted_of_ne m1 h⟩⟩
  intro m h
  unfold disableMicrophone
  by_cases hms : m.micSource = true
  · rw [if_pos hms]
    exact disable_core _ h
  · rw [if_neg hms]
    exact disable_core _ h

theorem self_healing_source_witness :
    mMic.state.source = .microphone
      ∧ (disableMicrophone mMic).state.source = .oscillator :=
  ⟨by decide, (self_healing_source.1 mMic (by decide)).1⟩

/-- The canonical oscillator sub-state a command's mutator writes is what
the rebuild leaves in place. -/
theorem updateState_oscillator (f : EngineState → EngineState) (m : EngineModel) :
    (updateState f m).state.oscillator = (f m.state).oscillator := by
  show (rebuildSignalChain _).state.oscillator = _
  rw [rebuildSignalChain_oscillator]

/-- With a live context, a command's rebuild leaves the oscillator node
mirroring the mutated state. -/
theorem updateState_oscNode (f : EngineState → EngineState) (m : EngineModel)
    (hctx : m.ctx = true) :
    (updateState f m).oscNode =
      if (f m.state).oscillator.running then
        some ⟨(f m.state).oscillator.type, (f m.state).oscillator.frequency⟩
      else none := by
  show (rebuildSignalChain _).oscNode = _
  rw [rebuildSignalChain_oscNode]
  exact hctx

/-- C4 counterexample: `setFrequency(5000)` stores 5000 — not the claimed
clamp of 5000 to [20, 2000], which is 2000 — and the live oscillator node's
frequency also becomes 5000. -/
theorem setFrequency_clamp_cex :
    (setFrequency (.num 5000) mStart).state.oscillator.frequency = .num 5000
      ∧ (setFrequency (.num 5000) mStart).oscNode = some ⟨.sine, .num 5000⟩
      ∧ clamp (.num 5000) (.num 20) (.num 2000) = .num 2000
      ∧ JSNum.num 5000 ≠ JSNum.num 2000 :=
  ⟨by decide, by decide, by decide, by decide⟩

/-- C4 (amended): `setFrequency(hz)` updates `oscillator.frequencyHz` to
`hz` without clamping, and when the engine is initialised and the
oscillator running, the live oscillator node's frequency equals `hz` after
the triggered rebuild. -/
theorem setFrequency_unclamped (m : EngineModel) (hz : JSNum) :
    (setFrequency hz m).state.oscillator.frequency = hz
      ∧ (m.ctx = true → m.state.oscillator.running = true →
          (setFrequency hz m).oscNode = some ⟨m.state.oscillator.type, hz⟩) := by
  constructor
  · rw [show setFrequency hz m = updateState
        (fun s => { s with oscillator := { s.oscillator with frequency := hz } }) m
      from rfl, updateState_oscillator]
  · intro hctx hr
    rw [show setFrequency hz m = updateState
        (fun s => { s with oscillator := { s.oscillator with frequency := hz } }) m
      from rfl, updateState_oscNode _ _ hctx]
    simp [hr]

theorem setFrequency_unclamped_witness :
    mStart.ctx = true ∧ mStart.state.oscillator.running = true
      ∧ (setFrequency (.num 880) mStart).state.oscillator.frequency = .num 880
      ∧ (setFrequency (.num 880) mStart).oscNode = some ⟨.sine, .num 880⟩ := by
  refine ⟨rfl, by decide, (setFrequency_unclamped mStart (.num 880)).1, ?_⟩
  rw [(setFrequency_unclamped mStart (.num 880)).2 rfl (by decide)]
  decide

/-- C5 counterexample: with the microphone enabled and no oscillator node
live, `setSource(Oscillator)` — a request for a source whose node does not
exist — returns `true` rather than `false`, and the state it leaves behind
does not have `source = Oscillator` (the triggered rebuild self-heals it
back to the microphone). -/
theorem setSource_availability_cex :
    mMic.oscNode = none
      ∧ (setSource .oscillator mMic).2 = true
      ∧ (setSource .oscillator mMic).1.state.source ≠ .oscillator :=
  ⟨by decide, by decide, by decide⟩

/-- With a live context the post-rebuild source is whatever the resolution
step chose. -/
theorem rebuildSignalChain_source (m : EngineModel) (hctx : m.ctx = true) :
    (rebuildSignalChain m).state.source = (chooseSource (syncPhase m)).2 := by
  unfold rebuildSignalChain
  rw [hctx]
  simp only [Bool.not_true, Bool.false_eq_true, if_false]
  rw [rebuildResolved_source]

/-- C5 (amended): `setSource(kind)` returns `false` and leaves the engine
entirely unchanged exactly when the microphone is requested while not
enabled; otherwise it returns `true` and emits a snapshot carrying
`source = kind`, though the triggered rebuild may immediately self-heal
`state.source` back when the requested source's node does not exist.  When
the microphone is requested while enabled, the source does stick. -/
theorem setSource_availability :
    (∀ (m : EngineModel) (src : SourceType), src = .microphone →
      m.state.mic = false → setSource src m = (m, false))
      ∧ (∀ (m : EngineModel) (src : SourceType),
          ¬(src = .microphone ∧ m.state.mic = false) →
          (setSource src m).2 = true
            ∧ ∃ rest, (setSource src m).1.emitted
              = rest ++ ({ m.state with source := src } :: m.emitted))
      ∧ (∀ m : EngineModel, Reachable m → m.state.mic = true →
          (setSource .microphone m).1.state.source = .microphone) := by
  refine ⟨?_, ?_, ?_⟩
  · intro m src h1 h2
    unfold setSource
    rw [if_pos ⟨h1, by simp [h2]⟩]
  · intro m src h
    have h2 : ¬(src = .microphone ∧ (!m.state.mic) = true) := by
      intro ⟨ha, hb⟩
      exact h ⟨ha, by simpa using hb⟩
    unfold setSource
    rw [if_neg h2]
    refine ⟨rfl, ?_⟩
    obtain ⟨rest, hr⟩ := rebuildSignalChain_emitted_shape
      { m with state := { m.state with source := src }
               emitted := { m.state with source := src } :: m.emitted }
    exact ⟨rest, hr⟩
  · intro m hR hm
    have hv := reachable_inv hR
    unfold setSource
    rw [if_neg (by simp [hm])]
    show (rebuildSignalChain _).state.source = .microphone
    rw [rebuildSignalChain_source]
    case hctx => exact hv.ctx
    set mm : EngineModel :=
      { m with state := { m.state with source := SourceType.microphone }
               emitted := { m.state with source := SourceType.microphone }
                 :: m.emitted } with hmm
    have hs1 : (syncPhase mm).state.source = .microphone := by
      rw [syncPhase_state]
    have hms : (syncPhase mm).micSource = true := by
      apply syncPhase_micSource_mono
      show m.micSource = true
      rw [hv.micSourceEq, hm]
    rw [chooseSource_mic hs1 hms]

theorem setSource_availability_witness :
    setSource .microphone initModel = (initModel, false)
      ∧ (setSource .oscillator initModel).2 = true
      ∧ (setSource .microphone mMic).1.state.source = .microphone :=
  ⟨setSource_availability.1 initModel .microphone rfl rfl,
   (setSource_availability.2.1 initModel .oscillator (by decide)).1,
   setSource_availability.2.2 mMic
     (Reachable.enableMicrophone true Reachable.init) (by decide)⟩

theorem gainInstanceUpdate_idem (p : Params) (g : JSNum) :
    gainInstanceUpdate p (gainInstanceUpdate p g) = gainInstanceUpdate p g := by
  unfold gainInstanceUpdate
  cases h : lookupParam p "gain" <;> simp [h]

theorem panInstanceUpdate_idem (p : Params) (g : JSNum) :
    panInstanceUpdate p (panInstanceUpdate p g) = panInstanceUpdate p g := by
  unfold panInstanceUpdate
  cases h : lookupParam p "pan" <;> simp [h]

theorem wasmGainInstanceUpdate_idem (p : Params) (g : JSNum) :
    wasmGainInstanceUpdate p (wasmGainInstanceUpdate p g) = wasmGainInstanceUpdate p g := by
  unfold wasmGainInstanceUpdate
  cases h : lookupParam p "gain" <;> simp [h]

theorem uiuaGainInstanceUpdate_idem (p : Params) (g : JSNum) :
    uiuaGainInstanceUpdate p (uiuaGainInstanceUpdate p g) = uiuaGainInstanceUpdate p g := by
  unfold uiuaGainInstanceUpdate
  cases h : lookupParam p "gain" <;> simp [h]

theorem delayInstanceUpdate_idem (p : Params) (s : NodeState) :
    delayInstanceUpdate p (delayInstanceUpdate p s) = delayInstanceUpdate p s := by
  unfold delayInstanceUpdate
  cases s <;>
    first
    | rfl
    | (cases h1 : lookupParam p "time" <;> cases h2 : lookupParam p "wet" <;>
        cases h3 : lookupParam p "feedback" <;> simp [h1, h2, h3])

theorem instanceUpdate_idem (kind : String) (p : Params) (s : NodeState) :
    instanceUpdate kind p (instanceUpdate kind p s) = instanceUpdate kind p s := by
  unfold instanceUpdate
  by_cases h1 : kind = "gain"
  · simp only [h1, if_true]
    cases s <;> simp [gainInstanceUpdate_idem]
  · rw [if_neg h1, if_neg h1]
    by_cases h2 : kind = "pan"
    · simp only [h2, if_true]
      cases s <;> simp [panInstanceUpdate_idem]
    · rw [if_neg h2, if_neg h2]
      by_cases h3 : kind = "delay"
      · simp only [h3, if_true]
        exact delayInstanceUpdate_idem p s
      · rw [if_neg h3, if_neg h3]
        by_cases h4 : kind = "wasm-gain"
        · simp only [h4, if_true]
          cases s <;> simp [wasmGainInstanceUpdate_idem]
        · rw [if_neg h4, if_neg h4]
          by_cases h5 : kind = "uiua-gain"
          · simp only [h5, if_true]
            cases s <;> simp [uiuaGainInstanceUpdate_idem]
          · rw [if_neg h5, if_neg h5]

/-- C8: every stage's `update` clamps each provided parameter to the
schema's `[min, max]` before applying it, ignores unknown parameter keys
(the result depends only on the lookups of the schema keys), leaves absent
parameters unchanged, and is idempotent; through `setStageParams` an
out-of-range value reaches the live instance clamped, and repeating the
same call changes nothing further. -/
theorem stage_update_contract :
    (∀ (kind : String) (p : Params) (s : NodeState),
      instanceUpdate kind p (instanceUpdate kind p s) = instanceUpdate kind p s)
      ∧ (∀ (p : Params) (g v : JSNum), lookupParam p "gain" = some v →
          gainInstanceUpdate p g = clamp v gainParamDef.min gainParamDef.max)
      ∧ (∀ (p : Params) (g : JSNum), lookupParam p "gain" = none →
          gainInstanceUpdate p g = g)
      ∧ (∀ (p q : Params) (g : JSNum), lookupParam p "gain" = lookupParam q "gain" →
          gainInstanceUpdate p g = gainInstanceUpdate q g)
      ∧ (∀ (p : Params) (g v : JSNum), lookupParam p "pan" = some v →
          panInstanceUpdate p g = clamp v panParamDef.min panParamDef.max)
      ∧ (∀ (p : Params) (g : JSNum), lookupParam p "pan" = none →
          panInstanceUpdate p g = g)
      ∧ (∀ (p q : Params) (g : JSNum), lookupParam p "pan" = lookupParam q "pan" →
          panInstanceUpdate p g = panInstanceUpdate q g)
      ∧ (∀ (p : Params) (t w d fb v : JSNum), lookupParam p "time" = some v →
          ∃ w2 d2 fb2, delayInstanceUpdate p (.delay t w d fb)
            = .delay (clamp v delayTimeParamDef.min delayTimeParamDef.max) w2 d2 fb2)
      ∧ (∀ (p : Params) (t w d fb v : JSNum), lookupParam p "wet" = some v →
          ∃ t2 fb2, delayInstanceUpdate p (.delay t w d fb)
            = .delay t2 (clamp v delayWetParamDef.min delayWetParamDef.max)
                (jsSub 1 (clamp v delayWetParamDef.min delayWetParamDef.max)) fb2)
      ∧ (∀ (p : Params) (t w d fb v : JSNum), lookupParam p "feedback" = some v →
          ∃ t2 w2 d2, delayInstanceUpdate p (.delay t w d fb)
            = .delay t2 w2 d2
                (clamp v delayFeedbackParamDef.min delayFeedbackParamDef.max))
      ∧ (∀ (p : Params) (t w d fb : JSNum), lookupParam p "time" = none →
          lookupParam p "wet" = none → lookupParam p "feedback" = none →
          delayInstanceUpdate p (.delay t w d fb) = .delay t w d fb)
      ∧ (∀ (p q : Params) (s : NodeState),
          lookupParam p "time" = lookupParam q "time" →
          lookupParam p "wet" = lookupParam q "wet" →
          lookupParam p "feedback" = lookupParam q "feedback" →
          delayInstanceUpdate p s = delayInstanceUpdate q s)
      ∧ (∀ (p : Params) (g v : JSNum), lookupParam p "gain" = some v →
          wasmGainInstanceUpdate p g
            = clamp v wasmGainParamDef.min wasmGainParamDef.max)
      ∧ (∀ (p : Params) (g v : JSNum), lookupParam p "gain" = some v →
          uiuaGainInstanceUpdate p g
            = clamp v uiuaGainParamDef.min uiuaGainParamDef.max)
      ∧ tblFind (setStageParams "gain-stage" [("gain", .num 5)] mStart).instances
          "gain-stage" = some ⟨"gain", .gain (.num 2)⟩
      ∧ tblFind (setStageParams "gain-stage" [("gain", .num 5)]
            (setStageParams "gain-stage" [("gain", .num 5)] mStart)).instances
          "gain-stage"
        = tblFind (setStageParams "gain-stage" [("gain", .num 5)] mStart).instances
          "gain-stage"
      ∧ (setStageParams "gain-stage" [("gain", .num 5)]
            (setStageParams "gain-stage" [("gain", .num 5)] mStart)).state.stages
        = (setStageParams "gain-stage" [("gain", .num 5)] mStart).state.stages := by
  refine ⟨instanceUpdate_idem, ?_, ?_, ?_, ?_, ?_, ?_, ?_, ?_, ?_, ?_, ?_, ?_, ?_,
    by decide, by decide, by decide⟩
  · intro p g v h
    unfold gainInstanceUpdate
    rw [h]
    rfl
  · intro p g h
    unfold gainInstanceUpdate
    rw [h]
  · intro p q g h
    unfold gainInstanceUpdate
    rw [h]
  · intro p g v h
    unfold panInstanceUpdate
    rw [h]
    rfl
  · intro p g h
    unfold panInstanceUpdate
    rw [h]
  · intro p q g h
    unfold panInstanceUpdate
    rw [h]
  · intro p t w d fb v h
    unfold delayInstanceUpdate
    rw [h]
    cases h2 : lookupParam p "wet" <;> cases h3 : lookupParam p "feedback" <;>
      exact ⟨_, _, _, rfl⟩
  · intro p t w d fb v h
    unfold delayInstanceUpdate
    rw [h]
    cases h1 : lookupParam p "time" <;> cases h3 : lookupParam p "feedback" <;>
      exact ⟨_, _, rfl⟩
  · intro p t w d fb v h
    unfold delayInstanceUpdate
    rw [h]
    cases h1 : lookupParam p "time" <;> cases h2 : lookupParam p "wet" <;>
      exact ⟨_, _, _, rfl⟩
  · intro p t w d fb h1 h2 h3
    unfold delayInstanceUpdate
    rw [h1, h2, h3]
  · intro p q s h1 h2 h3
    unfold delayInstanceUpdate
    rw [h1, h2, h3]
  · intro p g v h
    unfold wasmGainInstanceUpdate
    rw [h]
    rfl
  · intro p g v h
    unfold uiuaGainInstanceUpdate
    rw [h]
    rfl

theorem stage_update_contract_witness :
    instanceUpdate "gain" [("gain", .num 5)]
        (instanceUpdate "gain" [("gain", .num 5)] (.gain (.num 1)))
      = instanceUpdate "gain" [("gain", .num 5)] (.gain (.num 1))
      ∧ gainInstanceUpdate [("gain", .num 5)] (.num 1)
        = clamp (.num 5) gainParamDef.min gainParamDef.max
      ∧ gainInstanceUpdate [] (.num 1) = .num 1
      ∧ gainInstanceUpdate [("unknown", .num 7)] (.num 1)
        = gainInstanceUpdate [] (.num 1)
      ∧ (∃ w2 d2 fb2,
          delayInstanceUpdate [("time", .num 9)] (.delay 0 0 1 0)
            = .delay (clamp (.num 9) delayTimeParamDef.min delayTimeParamDef.max)
                w2 d2 fb2) :=
  ⟨stage_update_contract.1 "gain" [("gain", .num 5)] (.gain (.num 1)),
   stage_update_contract.2.1 [("gain", .num 5)] (.num 1) (.num 5) rfl,
   stage_update_contract.2.2.1 [] (.num 1) rfl,
   stage_update_contract.2.2.2.1 [("unknown", .num 7)] [] (.num 1) (by decide),
   stage_update_contract.2.2.2.2.2.2.2.1 [("time", .num 9)] 0 0 1 0 (.num 9) rfl⟩

/-- C10: the shared `clamp` maps NaN to the schema minimum, so updating any
known parameter with NaN writes that parameter's schema minimum into the
live node — a NaN never reaches a live audio parameter through the
sanctioned update path. -/
theorem nan_clamps_to_min :
    (∀ mn mx : JSNum, clamp .nan mn mx = mn)
      ∧ (∀ (p : Params) (g : JSNum), lookupParam p "gain" = some .nan →
          gainInstanceUpdate p g = gainParamDef.min)
      ∧ (∀ (p : Params) (g : JSNum), lookupParam p "pan" = some .nan →
          panInstanceUpdate p g = panParamDef.min)
      ∧ (∀ (p : Params) (t w d fb : JSNum), lookupParam p "time" = some .nan →
          ∃ w2 d2 fb2, delayInstanceUpdate p (.delay t w d fb)
            = .delay delayTimeParamDef.min w2 d2 fb2)
      ∧ (∀ (p : Params) (t w d fb : JSNum), lookupParam p "wet" = some .nan →
          ∃ t2 fb2, delayInstanceUpdate p (.delay t w d fb)
            = .delay t2 delayWetParamDef.min (jsSub 1 delayWetParamDef.min) fb2)
      ∧ (∀ (p : Params) (t w d fb : JSNum), lookupParam p "feedback" = some .nan →
          ∃ t2 w2 d2, delayInstanceUpdate p (.delay t w d fb)
            = .delay t2 w2 d2 delayFeedbackParamDef.min)
      ∧ (∀ (p : Params) (g : JSNum), lookupParam p "gain" = some .nan →
          wasmGainInstanceUpdate p g = wasmGainParamDef.min)
      ∧ (∀ (p : Params) (g : JSNum), lookupParam p "gain" = some .nan →
          uiuaGainInstanceUpdate p g = uiuaGainParamDef.min) := by
  refine ⟨fun mn mx => rfl, ?_, ?_, ?_, ?_, ?_, ?_, ?_⟩
  · intro p g h
    unfold gainInstanceUpdate
    rw [h]
    rfl
  · intro p g h
    unfold panInstanceUpdate
    rw [h]
    rfl
  · intro p t w d fb h
    unfold delayInstanceUpdate
    rw [h]
    cases h2 : lookupParam p "wet" <;> cases h3 : lookupParam p "feedback" <;>
      exact ⟨_, _, _, rfl⟩
  · intro p t w d fb h
    unfold delayInstanceUpdate
    rw [h]
    cases h1 : lookupParam p "time" <;> cases h3 : lookupParam p "feedback" <;>
      exact ⟨_, _, rfl⟩
  · intro p t w d fb h
    unfold delayInstanceUpdate
    rw [h]
    cases h1 : lookupParam p "time" <;> cases h2 : lookupParam p "wet" <;>
      exact ⟨_, _, _, rfl⟩
  · intro p g h
    unfold wasmGainInstanceUpdate
    rw [h]
    rfl
  · intro p g h
    unfold uiuaGainInstanceUpdate
    rw [h]
    rfl

theorem nan_clamps_to_min_witness :
    clamp .nan (.num 20) (.num 2000) = .num 20
      ∧ gainInstanceUpdate [("gain", .nan)] (.num 1) = gainParamDef.min
      ∧ panInstanceUpdate [("pan", .nan)] (.num 0) = panParamDef.min
      ∧ wasmGainInstanceUpdate [("gain", .nan)] (.num 1) = wasmGainParamDef.min
      ∧ (∃ t2 fb2,
          delayInstanceUpdate [("wet", .nan)] (.delay 0 0 1 0)
            = .delay t2 delayWetParamDef.min (jsSub 1 delayWetParamDef.min) fb2) :=
  ⟨nan_clamps_to_min.1 (.num 20) (.num 2000),
   nan_clamps_to_min.2.1 [("gain", .nan)] (.num 1) rfl,
   nan_clamps_to_min.2.2.1 [("pan", .nan)] (.num 0) rfl,
   nan_clamps_to_min.2.2.2.2.2.2.1 [("gain", .nan)] (.num 1) rfl,
   nan_clamps_to_min.2.2.2.2.1 [("wet", .nan)] 0 0 1 0 rfl⟩

end Signals
